import Mathlib

/-!
Verification development for the adaptive event-retrieval and normalization
engine in `src/lib/history/subgraph.ts`.

The TypeScript code is shallowly embedded as executable Lean definitions:

* JavaScript numbers are modelled as exact decimal rationals `JsRat`
  (value `num / 10 ^ denExp`) extended with `NaN` and signed infinities
  (`JsNum`).  Every numeric value that actually flows through this code is a
  decimal literal from JSON or an integer, so the decimal-rational model is
  exact for them; binary floating-point rounding is not modelled.
* JSON values from the subgraph responses are modelled by `JsVal`.
* The network is modelled by oracles: a page oracle mapping a root query
  field and a skip offset to the list of raw records the endpoint returns,
  and an `Introspection` oracle describing the endpoint schema.  Each
  awaited `postGraphQL` round trip of the source is one oracle lookup, and
  the fetch loops also return the trace of (query field, skip) round trips
  they issued.
* The unbounded `while (true)` pagination loops take a fuel argument and
  return `none` when the fuel is exhausted, so termination is observable.
-/

/-- A JavaScript number that is an exact decimal: `num / 10 ^ denExp`.
All numbers reaching the engine originate from JSON decimal literals or
integer arithmetic, which this represents exactly. -/
structure JsRat where
  num : Int
  denExp : Nat
deriving DecidableEq

/-- The rational value denoted by a `JsRat`. -/
def JsRat.val (x : JsRat) : ℚ := (x.num : ℚ) / 10 ^ x.denExp

/-- ECMAScript ToIntegerOrInfinity on a finite number: truncation toward
zero.  `Int.tdiv` truncates toward zero. -/
def JsRat.toIntTrunc (x : JsRat) : Int := x.num.tdiv (10 ^ x.denExp)

/-- A JavaScript number: finite decimal, NaN, or a signed infinity. -/
inductive JsNum where
  | fin (x : JsRat)
  | nan
  | inf
  | ninf
deriving DecidableEq

/-- `Number.isFinite`. -/
def JsNum.isFinite : JsNum → Bool
  | .fin _ => true
  | _ => false

/-- A JSON value as delivered by the GraphQL endpoint (plus booleans and
null, which `JSON.parse` can produce anywhere). -/
inductive JsVal where
  | str (s : String)
  | num (n : JsNum)
  | bool (b : Bool)
  | nul
  | arr (xs : List JsVal)
  | obj (fields : List (String × JsVal))

/-- JavaScript truthiness of a value. -/
def jsTruthy : JsVal → Bool
  | .str s => !(s = "")
  | .num (.fin x) => !(x.num = 0)
  | .num .nan => false
  | .num .inf => true
  | .num .ninf => true
  | .bool b => b
  | .nul => false
  | .arr _ => true
  | .obj _ => true

/-- `typeof v === "object"` for a truthy test partner: objects and arrays
(null is also typeof "object" but is always filtered by truthiness first
in this code). -/
def JsVal.isObjLike : JsVal → Bool
  | .obj _ => true
  | .arr _ => true
  | .nul => true
  | _ => false

/-- Property access `v[k]` on a JSON value: defined on objects, `undefined`
(modelled as `none`) on everything else. -/
def objGet (v : JsVal) (k : String) : Option JsVal :=
  match v with
  | .obj fs => (fs.find? (fun p => p.1 = k)).map Prod.snd
  | _ => none

/-! ### Model of `Number(x)` string-to-number conversion -/

/-- ECMAScript white space accepted by StringToNumber (ASCII subset). -/
def isJsWhitespace (c : Char) : Bool :=
  c = ' ' || c = '\t' || c = '\n' || c = '\r'

/-- Hexadecimal digit value. -/
def hexDigitVal (c : Char) : Option Nat :=
  if '0' ≤ c ∧ c ≤ '9' then some (c.toNat - 48)
  else if 'a' ≤ c ∧ c ≤ 'f' then some (c.toNat - 87)
  else if 'A' ≤ c ∧ c ≤ 'F' then some (c.toNat - 55)
  else none

/-- Value of a list of digit characters read in the given base, `none` if
empty or some character is not a digit of that base. -/
def baseDigitsVal (base : Nat) (digitOf : Char → Option Nat) : List Char → Option Nat
  | [] => none
  | l => l.foldl (fun acc c =>
      match acc, digitOf c with
      | some a, some d => some (base * a + d)
      | _, _ => none) (some 0)

/-- Decimal digit test, as in the regular expression `[0-9]`. -/
def isDigitChar (c : Char) : Bool := '0' ≤ c && c ≤ '9'

/-- Decimal value of a digit-character list (most significant first),
Horner evaluation of the digits. -/
def digitsVal : List Char → Nat
  | [] => 0
  | c :: t => (c.toNat - 48) * 10 ^ t.length + digitsVal t

/-- Parse the body of a decimal numeric literal (no sign):
`digits [. digits] [e sign digits]` or `. digits [e sign digits]`.
Returns the exact decimal value. -/
def parseDecimalBody (l : List Char) : Option JsRat :=
  let intPart := l.takeWhile isDigitChar
  let rest1 := l.dropWhile isDigitChar
  let fracState : Option (List Char × List Char) :=
    match rest1 with
    | '.' :: r =>
      let fp := r.takeWhile isDigitChar
      some (fp, r.dropWhile isDigitChar)
    | _ => some ([], rest1)
  match fracState with
  | none => none
  | some (fracPart, rest2) =>
    if intPart = [] ∧ fracPart = [] then none
    else
      let mantissa : JsRat :=
        ⟨(digitsVal intPart * 10 ^ fracPart.length + digitsVal fracPart : Nat), fracPart.length⟩
      match rest2 with
      | [] => some mantissa
      | e :: r =>
        if e = 'e' ∨ e = 'E' then
          let (negExp, digitsPart) :=
            match r with
            | '+' :: t => (false, t)
            | '-' :: t => (true, t)
            | t => (false, t)
          if digitsPart ≠ [] ∧ digitsPart.all isDigitChar then
            let ex := digitsVal digitsPart
            if negExp then some ⟨mantissa.num, mantissa.denExp + ex⟩
            else some ⟨mantissa.num * 10 ^ ex, mantissa.denExp⟩
          else none
        else none

/-- Model of ECMAScript StringToNumber (`Number(string)`), on the grammar
that can actually reach this engine: whitespace trimming, empty string to
0, signed decimal literals with optional exponent, `Infinity`, and the
0x/0o/0b integer forms.  Anything else is NaN. -/
def parseJsNumber (s : String) : JsNum :=
  let t := ((s.data.dropWhile isJsWhitespace).reverse.dropWhile isJsWhitespace).reverse
  match t with
  | [] => .fin ⟨0, 0⟩
  | '0' :: 'x' :: r =>
    match baseDigitsVal 16 hexDigitVal r with
    | some v => .fin ⟨(v : Int), 0⟩
    | none => .nan
  | '0' :: 'X' :: r =>
    match baseDigitsVal 16 hexDigitVal r with
    | some v => .fin ⟨(v : Int), 0⟩
    | none => .nan
  | '0' :: 'o' :: r =>
    match baseDigitsVal 8 (fun c => if '0' ≤ c ∧ c ≤ '7' then some (c.toNat - 48) else none) r with
    | some v => .fin ⟨(v : Int), 0⟩
    | none => .nan
  | '0' :: 'b' :: r =>
    match baseDigitsVal 2 (fun c => if c = '0' ∨ c = '1' then some (c.toNat - 48) else none) r with
    | some v => .fin ⟨(v : Int), 0⟩
    | none => .nan
  | l =>
    let (neg, body) :=
      match l with
      | '+' :: r => (false, r)
      | '-' :: r => (true, r)
      | r => (false, r)
    if body = "Infinity".data then (if neg then .ninf else .inf)
    else
      match parseDecimalBody body with
      | some x => .fin (if neg then ⟨-x.num, x.denExp⟩ else x)
      | none => .nan

/-- `Number(v)` on a non-array value.  Objects convert through
`"[object Object]"`, hence NaN. -/
def jsScalarToNumber : JsVal → JsNum
  | .num n => n
  | .str s => parseJsNumber s
  | .bool b => .fin ⟨if b then 1 else 0, 0⟩
  | .nul => .fin ⟨0, 0⟩
  | .obj _ => .nan
  | .arr _ => .nan

/-- `Number(v)`.  An array converts through its `toString`: `[]` gives 0,
a one-element array converts like its element (the string round trip is
modelled as the identity on the denoted value), longer arrays contain a
comma and give NaN.  Arrays nested more than one level deep are modelled
as NaN; the GraphQL responses handled here never contain them. -/
def jsToNumber : JsVal → JsNum
  | .arr [] => .fin ⟨0, 0⟩
  | .arr [v] => jsScalarToNumber v
  | .arr _ => .nan
  | v => jsScalarToNumber v

/-! ### `isIntegerString`, `normalizeAmount` (subgraph.ts lines 154-204) -/

/-- `/^[0-9]+$/.test(value)` (subgraph.ts line 154). -/
def isIntegerString (value : String) : Bool :=
  !(value = "") && value.data.all isDigitChar

/-- `BigInt(s)` for a string of decimal digits: its numeric value. -/
def strVal (s : String) : Nat := digitsVal s.data

/-- Little-endian decimal digits of a natural number, with fuel (the fuel
`v` itself always suffices). -/
def natDigitsRev : Nat → Nat → List Nat
  | 0, _ => []
  | fuel + 1, v => if v = 0 then [] else v % 10 :: natDigitsRev fuel (v / 10)

/-- `BigInt.prototype.toString` for a non-negative value: canonical decimal
digit characters, most significant first. -/
def natToDigits (v : Nat) : List Char :=
  if v = 0 then ['0'] else ((natDigitsRev v v).reverse.map (fun d => Char.ofNat (48 + d)))

/-- `String.prototype.padStart(n, "0")`. -/
def padStartZeros (l : List Char) (n : Nat) : List Char :=
  List.replicate (n - l.length) '0' ++ l

/-- `fraction.replace(/(0+)$/, "")`: strip the trailing run of zeros. -/
def stripTrailingZeros (l : List Char) : List Char :=
  (l.reverse.dropWhile (fun c => c = '0')).reverse

/-- Resolve a `String.prototype.slice` index (already truncated to an
integer): negative counts from the end, then clamp into `[0, len]`. -/
def jsSliceIdx (len : Nat) (k : Int) : Nat :=
  if k < 0 then ((len : Int) + k).toNat else min k.toNat len

/-- `l.slice(start, finish)` on characters, integer arguments. -/
def jsSliceChars (l : List Char) (start finish : Int) : List Char :=
  (l.take (jsSliceIdx l.length finish)).drop (jsSliceIdx l.length start)

/-- Assemble viem formatUnits output:
`(integer || "0") + (fraction ? "." + fraction : "")`. -/
def mkUnitsString (integer fraction : List Char) : String :=
  String.mk ((if integer = [] then ['0'] else integer) ++
    (if fraction = [] then [] else '.' :: fraction))

/-- Model of viem `formatUnits(value, decimals)` for a non-negative
`value`, following the ECMAScript semantics of its string operations:
`display.padStart(decimals, "0")`, the two `slice` calls at
`display.length - decimals`, and the trailing-zero strip.  `none` models a
thrown RangeError (`padStart` to a length beyond the engine string limit,
from a `+Infinity` decimals, whose ToLength is 2^53 - 1). -/
def formatUnits (v : Nat) (decimals : JsNum) : Option String :=
  match decimals with
  | .inf => none
  | .nan =>
    let display := natToDigits v
    some (mkUnitsString [] (stripTrailingZeros display))
  | .ninf =>
    let display := natToDigits v
    some (mkUnitsString display [])
  | .fin q =>
    let ds := natToDigits v
    let padLen : Nat := if q.num < 0 then 0 else q.toIntTrunc.toNat
    let display := padStartZeros ds padLen
    let cut : Int := (JsRat.mk ((display.length : Int) * 10 ^ q.denExp - q.num) q.denExp).toIntTrunc
    let integer := jsSliceChars display 0 cut
    let fraction := stripTrailingZeros (jsSliceChars display cut (display.length : Int))
    some (mkUnitsString integer fraction)

/-- `normalizeAmount` (subgraph.ts lines 192-204): rescale a fixed-point
integer string by the asset decimals, falling back to the raw string when
the decimals are unknown, the raw value is not a pure integer string, or
the conversion throws; a falsy (empty or null) raw amount gives null. -/
def normalizeAmount (amountRaw : Option String) (decimals : Option JsNum) : Option String :=
  match amountRaw with
  | none => none
  | some raw =>
    if raw = "" then none
    else
      match decimals with
      | none => some raw
      | some d =>
        if isIntegerString raw then
          match formatUnits (strVal raw) d with
          | some s => some s
          | none => some raw
        else some raw

/-! ### Decimal-string denotation (specification side) -/

/-- Split a character list at the first dot. -/
def splitAtDot : List Char → List Char × Option (List Char)
  | [] => ([], none)
  | c :: rest =>
    if c = '.' then ([], some rest)
    else (c :: (splitAtDot rest).1, (splitAtDot rest).2)

/-- The exact rational denoted by a plain decimal string
(`digits` or `digits.digits`), `none` if the string is not of that shape.
Used only to state what a produced amount string means. -/
def decimalStringVal (s : String) : Option ℚ :=
  match (splitAtDot s.data).2 with
  | none =>
    if (splitAtDot s.data).1 ≠ [] ∧ (splitAtDot s.data).1.all isDigitChar then
      some ((digitsVal (splitAtDot s.data).1 : ℚ))
    else none
  | some fp =>
    if (splitAtDot s.data).1.all isDigitChar ∧ fp ≠ [] ∧ fp.all isDigitChar then
      some ((digitsVal (splitAtDot s.data).1 : ℚ) + (digitsVal fp : ℚ) / 10 ^ fp.length)
    else none


/-! ### Digit arithmetic lemmas -/

/-- Little-endian decimal value of a digit list, used to relate
`natDigitsRev` to the number it represents. -/
def digitsValLE : List Nat → Nat
  | [] => 0
  | d :: t => d + 10 * digitsValLE t

theorem digitsVal_append (a b : List Char) :
    digitsVal (a ++ b) = digitsVal a * 10 ^ b.length + digitsVal b := by
  induction a with
  | nil => simp [digitsVal]
  | cons c t ih =>
    simp only [List.cons_append, digitsVal, List.append_eq, List.length_append, ih]
    rw [pow_add]
    ring

theorem digitsVal_replicate_zero (k : Nat) :
    digitsVal (List.replicate k '0') = 0 := by
  induction k with
  | zero => rfl
  | succ n ih =>
    rw [List.replicate_succ]
    show ('0'.toNat - 48) * 10 ^ (List.replicate n '0').length + digitsVal (List.replicate n '0') = 0
    rw [ih]
    have h0 : '0'.toNat - 48 = 0 := rfl
    rw [h0]
    ring

theorem digitsVal_pad (l : List Char) (n : Nat) :
    digitsVal (padStartZeros l n) = digitsVal l := by
  unfold padStartZeros
  rw [digitsVal_append, digitsVal_replicate_zero]
  simp

theorem natDigitsRev_spec (fuel : Nat) : ∀ v : Nat, v ≤ fuel →
    digitsValLE (natDigitsRev fuel v) = v ∧ ∀ d ∈ natDigitsRev fuel v, d < 10 := by
  induction fuel with
  | zero =>
    intro v hv
    have hz : v = 0 := Nat.le_zero.mp hv
    subst hz
    exact ⟨rfl, by intro d hd; simp [natDigitsRev] at hd⟩
  | succ f ih =>
    intro v hv
    by_cases h0 : v = 0
    · subst h0
      simp [natDigitsRev, digitsValLE]
    · have hrec : v / 10 ≤ f := by
        have := Nat.div_lt_self (Nat.pos_of_ne_zero h0) (by omega : 1 < 10)
        omega
      obtain ⟨ihv, ihd⟩ := ih (v / 10) hrec
      constructor
      · simp only [natDigitsRev, h0, if_false, digitsValLE]
        rw [ihv]
        omega
      · intro d hd
        simp only [natDigitsRev, h0, if_false, List.mem_cons] at hd
        rcases hd with h | h
        · subst h; exact Nat.mod_lt _ (by omega)
        · exact ihd d h

theorem charDigit_of_lt_ten (d : Nat) (h : d < 10) :
    (Char.ofNat (48 + d)).toNat - 48 = d := by
  interval_cases d <;> rfl

theorem isDigitChar_of_lt_ten (d : Nat) (h : d < 10) :
    isDigitChar (Char.ofNat (48 + d)) = true := by
  interval_cases d <;> rfl

theorem digitsVal_reverse_map (l : List Nat) (h : ∀ d ∈ l, d < 10) :
    digitsVal ((l.reverse).map (fun d => Char.ofNat (48 + d))) = digitsValLE l := by
  induction l with
  | nil => rfl
  | cons d t ih =>
    have hd : d < 10 := h d (List.mem_cons_self _ _)
    have ht : ∀ x ∈ t, x < 10 := fun x hx => h x (List.mem_cons_of_mem _ hx)
    simp only [List.reverse_cons, List.map_append, List.map_cons, List.map_nil]
    rw [digitsVal_append, ih ht]
    have hone : digitsVal [Char.ofNat (48 + d)] = d := by
      show ((Char.ofNat (48 + d)).toNat - 48) * 10 ^ (0 : Nat) + digitsVal [] = d
      rw [charDigit_of_lt_ten d hd]
      show d * 1 + 0 = d
      ring
    rw [hone]
    show digitsValLE t * 10 ^ ([Char.ofNat (48 + d)]).length + d = d + 10 * digitsValLE t
    show digitsValLE t * 10 ^ (1 : Nat) + d = d + 10 * digitsValLE t
    ring

theorem natToDigits_val (v : Nat) : digitsVal (natToDigits v) = v := by
  unfold natToDigits
  by_cases h0 : v = 0
  · subst h0; rfl
  · obtain ⟨hval, hdig⟩ := natDigitsRev_spec v v (Nat.le_refl v)
    simp only [h0, if_false]
    rw [digitsVal_reverse_map _ hdig, hval]

theorem natToDigits_digits (v : Nat) : ∀ c ∈ natToDigits v, isDigitChar c = true := by
  unfold natToDigits
  by_cases h0 : v = 0
  · subst h0; intro c hc; simp at hc; subst hc; rfl
  · obtain ⟨_, hdig⟩ := natDigitsRev_spec v v (Nat.le_refl v)
    simp only [h0, if_false]
    intro c hc
    rw [List.mem_map] at hc
    obtain ⟨d, hdm, rfl⟩ := hc
    exact isDigitChar_of_lt_ten d (hdig d (List.mem_reverse.mp hdm))

theorem pad_digits (l : List Char) (n : Nat) (h : ∀ c ∈ l, isDigitChar c = true) :
    ∀ c ∈ padStartZeros l n, isDigitChar c = true := by
  intro c hc
  unfold padStartZeros at hc
  rw [List.mem_append] at hc
  rcases hc with hc | hc
  · have := List.eq_of_mem_replicate hc
    subst this; rfl
  · exact h c hc

theorem stripTrailingZeros_decomp (l : List Char) :
    ∃ k, l = stripTrailingZeros l ++ List.replicate k '0' := by
  refine ⟨(l.reverse.takeWhile (fun c => c = '0')).length, ?_⟩
  have h0 : ∀ b ∈ l.reverse.takeWhile (fun c => c = '0'), b = '0' := by
    intro b hb
    simpa using List.mem_takeWhile_imp hb
  have hrep := List.eq_replicate_of_mem h0
  calc l = l.reverse.reverse := (l.reverse_reverse).symm
    _ = ((l.reverse.takeWhile (fun c => c = '0')) ++
          (l.reverse.dropWhile (fun c => c = '0'))).reverse := by
        rw [List.takeWhile_append_dropWhile]
    _ = (l.reverse.dropWhile (fun c => c = '0')).reverse ++
          (l.reverse.takeWhile (fun c => c = '0')).reverse := by
        rw [List.reverse_append]
    _ = stripTrailingZeros l ++ List.replicate (l.reverse.takeWhile (fun c => c = '0')).length '0' := by
        rw [stripTrailingZeros]
        congr 1
        rw [hrep, List.reverse_replicate, List.length_replicate]

theorem splitAtDot_no_dot (l : List Char) (h : ∀ c ∈ l, c ≠ '.') :
    splitAtDot l = (l, none) := by
  induction l with
  | nil => rfl
  | cons c t ih =>
    have hc : c ≠ '.' := h c (List.mem_cons_self _ _)
    have ht : ∀ x ∈ t, x ≠ '.' := fun x hx => h x (List.mem_cons_of_mem _ hx)
    simp only [splitAtDot, if_neg hc, ih ht]

theorem splitAtDot_append (a b : List Char) (h : ∀ c ∈ a, c ≠ '.') :
    splitAtDot (a ++ '.' :: b) = (a, some b) := by
  induction a with
  | nil => simp [splitAtDot]
  | cons c t ih =>
    have hc : c ≠ '.' := h c (List.mem_cons_self _ _)
    have ht : ∀ x ∈ t, x ≠ '.' := fun x hx => h x (List.mem_cons_of_mem _ hx)
    simp only [List.cons_append, splitAtDot, if_neg hc, List.append_eq, ih ht]

theorem digit_ne_dot (c : Char) (h : isDigitChar c = true) : c ≠ '.' := by
  intro hc
  subst hc
  simp [isDigitChar] at h

theorem decimalStringVal_int (ip : List Char) (h : ∀ c ∈ ip, c ≠ '.') :
    decimalStringVal (String.mk ip) =
      if ip ≠ [] ∧ ip.all isDigitChar then some ((digitsVal ip : ℚ)) else none := by
  unfold decimalStringVal
  rw [show (String.mk ip).data = ip from rfl, splitAtDot_no_dot ip h]

theorem decimalStringVal_dec (ip fp : List Char) (h : ∀ c ∈ ip, c ≠ '.') :
    decimalStringVal (String.mk (ip ++ '.' :: fp)) =
      if ip.all isDigitChar ∧ fp ≠ [] ∧ fp.all isDigitChar then
        some ((digitsVal ip : ℚ) + (digitsVal fp : ℚ) / 10 ^ fp.length)
      else none := by
  unfold decimalStringVal
  rw [show (String.mk (ip ++ '.' :: fp)).data = ip ++ '.' :: fp from rfl,
    splitAtDot_append ip fp h]

/-- Value of `mkUnitsString` built from digit lists: the fraction keeps its
denoted value through trailing-zero stripping. -/
theorem mkUnitsString_val (I F : List Char)
    (hI : ∀ c ∈ I, isDigitChar c = true) (hF : ∀ c ∈ F, isDigitChar c = true) :
    decimalStringVal (mkUnitsString I (stripTrailingZeros F)) =
      some ((digitsVal I : ℚ) + (digitsVal F : ℚ) / 10 ^ F.length) := by
  obtain ⟨k, hk⟩ := stripTrailingZeros_decomp F
  set Fs := stripTrailingZeros F with hFs
  have hFval : digitsVal F = digitsVal Fs * 10 ^ k := by
    rw [hk, digitsVal_append, digitsVal_replicate_zero, List.length_replicate]
    omega
  have hFlen : F.length = Fs.length + k := by
    rw [hk, List.length_append, List.length_replicate]
  have hFsdig : ∀ c ∈ Fs, isDigitChar c = true := by
    intro c hc
    exact hF c (hk ▸ List.mem_append_left _ hc)
  have hII : ∀ c ∈ (if I = [] then ['0'] else I), isDigitChar c = true := by
    intro c hc
    by_cases hI0 : I = []
    · rw [if_pos hI0] at hc
      simp at hc
      subst hc
      rfl
    · rw [if_neg hI0] at hc
      exact hI c hc
  have hIIdot : ∀ c ∈ (if I = [] then ['0'] else I), c ≠ '.' :=
    fun c hc => digit_ne_dot c (hII c hc)
  have hIIne : (if I = [] then ['0'] else I) ≠ [] := by
    by_cases hI0 : I = [] <;> simp [hI0]
  have hIIval : (digitsVal (if I = [] then ['0'] else I) : ℚ) = (digitsVal I : ℚ) := by
    by_cases hI0 : I = []
    · rw [if_pos hI0, hI0, show digitsVal ['0'] = 0 from rfl, show digitsVal [] = 0 from rfl]
    · rw [if_neg hI0]
  have hIIall : (if I = [] then ['0'] else I).all isDigitChar = true := by
    rw [List.all_eq_true]
    exact hII
  by_cases hF0 : Fs = []
  · -- no fractional digits survive: plain integer string
    have hFzero : (digitsVal F : ℚ) = 0 := by
      rw [hFval, hF0, show digitsVal [] = 0 from rfl]
      norm_num
    have hmk : mkUnitsString I Fs = String.mk (if I = [] then ['0'] else I) := by
      unfold mkUnitsString
      rw [if_pos hF0, List.append_nil]
    rw [hmk, decimalStringVal_int _ hIIdot, if_pos ⟨hIIne, hIIall⟩, hIIval, hFzero]
    norm_num
  · -- surviving fractional digits: integer.fraction string
    have hmk : mkUnitsString I Fs = String.mk ((if I = [] then ['0'] else I) ++ '.' :: Fs) := by
      unfold mkUnitsString
      rw [if_neg hF0]
    rw [hmk, decimalStringVal_dec _ _ hIIdot,
      if_pos ⟨hIIall, hF0, by rw [List.all_eq_true]; exact hFsdig⟩, hIIval]
    congr 1
    rw [hFval, hFlen]
    push_cast
    rw [pow_add]
    have h10 : ((10 : ℚ) ^ Fs.length) ≠ 0 := by positivity
    have h10k : ((10 : ℚ) ^ k) ≠ 0 := by positivity
    field_simp
    ring

/-- Evaluation of `formatUnits` at a genuine natural-number decimals value:
pad to `d`, split `d` fractional digits off the end, strip their trailing
zeros. -/
theorem formatUnits_nat (v d : Nat) :
    formatUnits v (.fin ⟨(d : Int), 0⟩) =
      some (mkUnitsString
        ((padStartZeros (natToDigits v) d).take ((padStartZeros (natToDigits v) d).length - d))
        (stripTrailingZeros
          ((padStartZeros (natToDigits v) d).drop ((padStartZeros (natToDigits v) d).length - d)))) := by
  have hpad : (if (JsRat.mk (d : Int) 0).num < 0 then (0 : Nat)
      else (JsRat.mk (d : Int) 0).toIntTrunc.toNat) = d := by
    rw [if_neg (by simp)]
    unfold JsRat.toIntTrunc
    simp [Int.tdiv_one]
  show some (mkUnitsString _ _) = _
  set display := padStartZeros (natToDigits v)
    (if (JsRat.mk (d : Int) 0).num < 0 then (0 : Nat)
      else (JsRat.mk (d : Int) 0).toIntTrunc.toNat) with hdisp
  have hdisp2 : display = padStartZeros (natToDigits v) d := by rw [hdisp, hpad]
  have hdM : d ≤ display.length := by
    rw [hdisp2]
    unfold padStartZeros
    rw [List.length_append, List.length_replicate]
    omega
  have hcut : (JsRat.mk ((display.length : Int) * 10 ^ (0 : Nat) - (d : Int)) 0).toIntTrunc =
      (display.length : Int) - d := by
    unfold JsRat.toIntTrunc
    simp [Int.tdiv_one]
  rw [hcut]
  have hidx : jsSliceIdx display.length ((display.length : Int) - d) = display.length - d := by
    unfold jsSliceIdx
    rw [if_neg (by omega)]
    have h1 : ((display.length : Int) - d).toNat = display.length - d := by omega
    rw [h1]
    omega
  have hidx0 : jsSliceIdx display.length 0 = 0 := by
    unfold jsSliceIdx
    simp
  have hidxL : jsSliceIdx display.length (display.length : Int) = display.length := by
    unfold jsSliceIdx
    rw [if_neg (by omega)]
    simp
  unfold jsSliceChars
  rw [hidx, hidx0, hidxL, List.drop_zero, List.take_length, hdisp2]

/-- C3: for `amountRaw = "1000000"` and `assetDecimals = 6` the normalized
amount is exactly the decimal value 1 (see the witness); in general, for
every `amountRaw` consisting only of ASCII digits (the `/^[0-9]+$/` test)
and every known non-negative integer `assetDecimals = d`,
`normalizeAmount` returns a decimal string denoting exactly
`amountRaw / 10 ^ d` — no precision loss. -/
theorem normalizeAmount_exact_decimal (raw : String) (d : Nat)
    (h : isIntegerString raw = true) :
    ∃ s, normalizeAmount (some raw) (some (.fin ⟨(d : Int), 0⟩)) = some s ∧
      decimalStringVal s = some ((strVal raw : ℚ) / 10 ^ d) := by
  have hne : ¬ (raw = "") := by
    intro h0
    rw [h0] at h
    simp [isIntegerString] at h
  set v := strVal raw with hv
  set display := padStartZeros (natToDigits v) d with hdisp
  have hdM : d ≤ display.length := by
    rw [hdisp]
    unfold padStartZeros
    rw [List.length_append, List.length_replicate]
    omega
  have hdig : ∀ c ∈ display, isDigitChar c = true :=
    pad_digits _ _ (natToDigits_digits v)
  set I := display.take (display.length - d) with hI
  set F := display.drop (display.length - d) with hF
  have hIF : I ++ F = display := List.take_append_drop _ _
  have hFlen : F.length = d := by
    rw [hF, List.length_drop]
    omega
  have hIdig : ∀ c ∈ I, isDigitChar c = true := by
    intro c hc
    exact hdig c (hIF ▸ List.mem_append_left _ hc)
  have hFdig : ∀ c ∈ F, isDigitChar c = true := by
    intro c hc
    exact hdig c (hIF ▸ List.mem_append_right _ hc)
  refine ⟨mkUnitsString I (stripTrailingZeros F), ?_, ?_⟩
  · unfold normalizeAmount
    dsimp only
    rw [if_neg hne, if_pos h, formatUnits_nat]
  · rw [mkUnitsString_val I F hIdig hFdig]
    have hval : digitsVal I * 10 ^ d + digitsVal F = v := by
      have happ := digitsVal_append I F
      rw [hIF, hFlen] at happ
      rw [← happ, hdisp, digitsVal_pad, natToDigits_val]
    congr 1
    rw [hFlen]
    have h10 : ((10 : ℚ) ^ d) ≠ 0 := by positivity
    field_simp
    push_cast [← hval]
    ring

/-- Witness for C3 at the concrete input of the claim:
`amountRaw = "1000000"`, `assetDecimals = 6`, output `"1"`. -/
theorem normalizeAmount_exact_decimal_witness :
    (∃ s, normalizeAmount (some "1000000") (some (.fin ⟨((6 : Nat) : Int), 0⟩)) = some s ∧
      decimalStringVal s = some ((strVal "1000000" : ℚ) / 10 ^ (6 : Nat))) ∧
    normalizeAmount (some "1000000") (some (.fin ⟨((6 : Nat) : Int), 0⟩)) = some "1" :=
  ⟨normalizeAmount_exact_decimal "1000000" 6 (by rfl), by decide⟩

/-- C4 counterexample: the claim says a non-integer `amountRaw` string is
returned unchanged for every string, but the empty string (which is not a
pure integer string) is falsy in JavaScript, so `normalizeAmount` returns
null for it instead of returning it unchanged. -/
theorem normalizeAmount_empty_cex :
    normalizeAmount (some "") none = none ∧
    normalizeAmount (some "") none ≠ some "" ∧
    isIntegerString "" = false := by
  refine ⟨by decide, by decide, by decide⟩

/-- C4 (amended): for every non-empty `amountRaw`, unknown decimals or a
non-integer raw string make `normalizeAmount` return the raw string
unchanged; an empty or null raw amount yields null.  The function is a
total Lean function, hence never throws. -/
theorem normalizeAmount_fallback_unchanged :
    (∀ raw : String, raw ≠ "" → normalizeAmount (some raw) none = some raw) ∧
    (∀ (raw : String) (d : JsNum), raw ≠ "" → isIntegerString raw = false →
      normalizeAmount (some raw) (some d) = some raw) ∧
    (∀ d : Option JsNum, normalizeAmount (some "") d = none) ∧
    (∀ d : Option JsNum, normalizeAmount none d = none) := by
  refine ⟨?_, ?_, ?_, ?_⟩
  · intro raw hne
    unfold normalizeAmount
    dsimp only
    rw [if_neg hne]
  · intro raw d hne hint
    unfold normalizeAmount
    dsimp only
    rw [if_neg hne, hint]
    simp
  · intro d
    unfold normalizeAmount
    dsimp only
    rw [if_pos rfl]
  · intro d
    rfl

/-- Witness for C4 (amended) at concrete inputs: an already-decimal string
and a garbage string pass through unchanged with and without decimals. -/
theorem normalizeAmount_fallback_unchanged_witness :
    normalizeAmount (some "12.5") none = some "12.5" ∧
    normalizeAmount (some "12.5") (some (.fin ⟨6, 0⟩)) = some "12.5" ∧
    normalizeAmount (some "garbage") (some (.fin ⟨18, 0⟩)) = some "garbage" ∧
    normalizeAmount (some "") (some (.fin ⟨6, 0⟩)) = none :=
  ⟨normalizeAmount_fallback_unchanged.1 "12.5" (by decide),
   normalizeAmount_fallback_unchanged.2.1 "12.5" _ (by decide) (by decide),
   normalizeAmount_fallback_unchanged.2.1 "garbage" _ (by decide) (by decide),
   normalizeAmount_fallback_unchanged.2.2.1 _⟩

/-! ### `normalizeEvent` (subgraph.ts lines 206-245) -/

/-- The parameter record passed to `normalizeEvent`.  Fields that the
sources deliver as GraphQL strings (ids, hashes, labels, amounts) are
modelled as strings; fields the code converts with `Number(...)`
(logIndex, blockNumber, timestamp, assetDecimals) are kept as raw JSON
values.  `none` is `undefined`. -/
structure EventParams where
  txHash : Option String := none
  logIndex : Option JsVal := none
  blockNumber : Option JsVal := none
  timestamp : Option JsVal := none
  eventType : Option String := none
  assetAddress : Option String := none
  assetSymbol : Option String := none
  assetDecimals : Option JsVal := none
  amountRaw : Option String := none
  amountUsdRaw : Option String := none

/-- The canonical output record (`NormalizedEvent` in subgraph.ts). -/
structure NormalizedEvent where
  txHash : String
  logIndex : JsRat
  blockNumber : JsRat
  timestamp : JsRat
  eventType : String
  assetAddress : Option String
  assetSymbol : Option String
  assetDecimals : Option JsRat
  amountRaw : Option String
  amount : Option String
  amountUsdRaw : Option String
deriving DecidableEq

/-- `Number.isFinite(x) ? x : 0`. -/
def finOrZero : JsNum → JsRat
  | .fin x => x
  | _ => ⟨0, 0⟩

/-- Lines 224-227: `params.assetDecimals !== undefined && !== null ?
Number(params.assetDecimals) : null`. -/
def decimalsToNumber : Option JsVal → Option JsNum
  | none => none
  | some .nul => none
  | some v => some (jsToNumber v)

/-- Line 240: `Number.isFinite(assetDecimals) ? assetDecimals : null`
(`Number.isFinite(null)` is false). -/
def finiteOrNull : Option JsNum → Option JsRat
  | some (.fin x) => some x
  | _ => none

/-- `normalizeEvent` (subgraph.ts lines 206-245): drop the record when the
transaction hash is falsy or the timestamp is not a finite positive
number; default every other field. -/
def normalizeEvent (params : EventParams) : Option NormalizedEvent :=
  let txHash := params.txHash.getD ""
  if txHash = "" then none
  else
    let logIndex := jsToNumber (params.logIndex.getD (.num (.fin ⟨0, 0⟩)))
    let timestamp := jsToNumber (params.timestamp.getD (.num (.fin ⟨0, 0⟩)))
    match timestamp with
    | .fin ts =>
      if ts.num ≤ 0 then none
      else
        let blockNumber := jsToNumber (params.blockNumber.getD (.num (.fin ⟨0, 0⟩)))
        let assetDecimals : Option JsNum := decimalsToNumber params.assetDecimals
        let amountRaw := params.amountRaw
        let amount := normalizeAmount amountRaw assetDecimals
        some {
          txHash := txHash
          logIndex := finOrZero logIndex
          blockNumber := finOrZero blockNumber
          timestamp := ts
          eventType := params.eventType.getD "UNKNOWN"
          assetAddress := params.assetAddress
          assetSymbol := params.assetSymbol
          assetDecimals := finiteOrNull assetDecimals
          amountRaw := amountRaw
          amount := amount
          amountUsdRaw := params.amountUsdRaw }
    | _ => none

/-- The timestamp of the raw record is missing, or converts to a
non-finite number, or converts to a value that is zero or negative. -/
def timestampRejected (p : EventParams) : Prop :=
  match p.timestamp with
  | none => True
  | some v =>
    match jsToNumber v with
    | .fin ts => ts.val ≤ 0
    | _ => True

theorem JsRat.val_pos_iff (x : JsRat) : 0 < x.val ↔ 0 < x.num := by
  unfold JsRat.val
  have hb : (0 : ℚ) < 10 ^ x.denExp := by positivity
  rw [div_pos_iff]
  constructor
  · rintro (⟨h1, _⟩ | ⟨_, h2⟩)
    · exact_mod_cast h1
    · linarith
  · intro h
    exact Or.inl ⟨by exact_mod_cast h, hb⟩

theorem JsRat.val_nonpos_iff (x : JsRat) : x.val ≤ 0 ↔ x.num ≤ 0 := by
  constructor
  · intro h
    by_contra hn
    push_neg at hn
    have := (JsRat.val_pos_iff x).mpr hn
    linarith
  · intro h
    by_contra hn
    push_neg at hn
    have := (JsRat.val_pos_iff x).mp hn
    omega

theorem normalizeEvent_none_of_no_txHash (p : EventParams)
    (h : p.txHash = none ∨ p.txHash = some "") :
    normalizeEvent p = none := by
  unfold normalizeEvent
  rcases h with h | h <;> rw [h] <;> rfl

theorem normalizeEvent_none_of_timestampRejected (p : EventParams)
    (h : timestampRejected p) :
    normalizeEvent p = none := by
  unfold normalizeEvent
  dsimp only
  by_cases h0 : p.txHash.getD "" = ""
  · rw [if_pos h0]
  · rw [if_neg h0]
    unfold timestampRejected at h
    cases hts : p.timestamp with
    | none => rfl
    | some v =>
      rw [hts] at h
      dsimp only [Option.getD_some] at h ⊢
      cases hn : jsToNumber v with
      | fin ts =>
        rw [hn] at h
        dsimp only at h ⊢
        rw [if_pos ((JsRat.val_nonpos_iff ts).mp h)]
      | nan => rfl
      | inf => rfl
      | ninf => rfl

theorem normalizeEvent_some_valid (p : EventParams) (e : NormalizedEvent)
    (h : normalizeEvent p = some e) :
    e.txHash ≠ "" ∧ 0 < e.timestamp.val := by
  unfold normalizeEvent at h
  dsimp only at h
  by_cases h0 : p.txHash.getD "" = ""
  · rw [if_pos h0] at h
    exact absurd h (by simp)
  · rw [if_neg h0] at h
    cases hn : jsToNumber (p.timestamp.getD (.num (.fin ⟨0, 0⟩))) with
    | fin ts =>
      rw [hn] at h
      dsimp only at h
      by_cases hle : ts.num ≤ 0
      · rw [if_pos hle] at h
        exact absurd h (by simp)
      · rw [if_neg hle] at h
        have he : e.txHash = p.txHash.getD "" ∧ e.timestamp = ts := by
          cases h
          exact ⟨rfl, rfl⟩
        rw [he.1, he.2]
        exact ⟨h0, (JsRat.val_pos_iff ts).mpr (by omega)⟩
    | nan => rw [hn] at h; exact absurd h (by simp)
    | inf => rw [hn] at h; exact absurd h (by simp)
    | ninf => rw [hn] at h; exact absurd h (by simp)

theorem finiteOrNull_some_nonfinite (n : JsNum) (h : n.isFinite = false) :
    finiteOrNull (some n) = none := by
  cases n with
  | fin x => simp [JsNum.isFinite] at h
  | nan => rfl
  | inf => rfl
  | ninf => rfl

theorem decimalsToNumber_some (dv : JsVal) (h : dv ≠ .nul) :
    decimalsToNumber (some dv) = some (jsToNumber dv) := by
  cases dv with
  | nul => exact absurd rfl h
  | str s => rfl
  | num n => rfl
  | bool b => rfl
  | arr xs => rfl
  | obj fs => rfl

theorem finOrZero_nonfinite (n : JsNum) (h : n.isFinite = false) :
    finOrZero n = ⟨0, 0⟩ := by
  cases n with
  | fin x => simp [JsNum.isFinite] at h
  | nan => rfl
  | inf => rfl
  | ninf => rfl

/-- C10: `normalizeEvent` rejects only for the identity / timestamp
invariants.  Every input with a non-empty transaction hash and a finite
positive timestamp yields a non-null event, in which a missing or
non-numeric `logIndex` or `blockNumber` becomes 0, a missing, null or
non-numeric `assetDecimals` becomes null, and a missing event label
becomes `"UNKNOWN"`. -/
theorem normalizeEvent_defaults_nonidentity (p : EventParams) (t : String)
    (v : JsVal) (ts : JsRat)
    (ht : p.txHash = some t) (htne : t ≠ "")
    (hv : p.timestamp = some v) (hts : jsToNumber v = .fin ts)
    (hpos : 0 < ts.val) :
    ∃ e, normalizeEvent p = some e ∧
      (p.logIndex = none → e.logIndex = ⟨0, 0⟩) ∧
      (∀ lv, p.logIndex = some lv → (jsToNumber lv).isFinite = false →
        e.logIndex = ⟨0, 0⟩) ∧
      (p.blockNumber = none → e.blockNumber = ⟨0, 0⟩) ∧
      (∀ bv, p.blockNumber = some bv → (jsToNumber bv).isFinite = false →
        e.blockNumber = ⟨0, 0⟩) ∧
      (p.assetDecimals = none → e.assetDecimals = none) ∧
      (p.assetDecimals = some .nul → e.assetDecimals = none) ∧
      (∀ dv, p.assetDecimals = some dv → (jsToNumber dv).isFinite = false →
        e.assetDecimals = none) ∧
      (p.eventType = none → e.eventType = "UNKNOWN") := by
  have hnum : ¬ (ts.num ≤ 0) := by
    have := (JsRat.val_pos_iff ts).mp hpos
    omega
  have hmain : normalizeEvent p = some {
      txHash := t
      logIndex := finOrZero (jsToNumber (p.logIndex.getD (.num (.fin ⟨0, 0⟩))))
      blockNumber := finOrZero (jsToNumber (p.blockNumber.getD (.num (.fin ⟨0, 0⟩))))
      timestamp := ts
      eventType := p.eventType.getD "UNKNOWN"
      assetAddress := p.assetAddress
      assetSymbol := p.assetSymbol
      assetDecimals := finiteOrNull (decimalsToNumber p.assetDecimals)
      amountRaw := p.amountRaw
      amount := normalizeAmount p.amountRaw (decimalsToNumber p.assetDecimals)
      amountUsdRaw := p.amountUsdRaw } := by
    unfold normalizeEvent
    rw [ht, hv]
    dsimp only [Option.getD_some]
    rw [if_neg htne, hts]
    dsimp only
    rw [if_neg hnum]
  refine ⟨_, hmain, ?_, ?_, ?_, ?_, ?_, ?_, ?_, ?_⟩
  · intro h
    rw [h]
    rfl
  · intro lv hl hnf
    rw [hl]
    dsimp only [Option.getD_some]
    exact finOrZero_nonfinite _ hnf
  · intro h
    rw [h]
    rfl
  · intro bv hb hnf
    rw [hb]
    dsimp only [Option.getD_some]
    exact finOrZero_nonfinite _ hnf
  · intro h
    rw [h]
    rfl
  · intro h
    rw [h]
    rfl
  · intro dv hd hnf
    rw [hd]
    by_cases hnul : dv = .nul
    · subst hnul
      rfl
    · rw [decimalsToNumber_some dv hnul]
      exact finiteOrNull_some_nonfinite _ hnf
  · intro h
    rw [h]
    rfl

/-- Concrete parameter record exercising the defaulting paths of
`normalizeEvent`: valid hash and timestamp, garbage everywhere else. -/
def sampleDefaultParams : EventParams :=
  { txHash := some "0xabc"
    timestamp := some (.str "123")
    logIndex := some (.str "zzz")
    blockNumber := some (.str "not-a-number")
    assetDecimals := some (.str "??")
    eventType := none }

/-- Witness for C10 at `sampleDefaultParams`. -/
theorem normalizeEvent_defaults_nonidentity_witness :
    ∃ e, normalizeEvent sampleDefaultParams = some e ∧
      (sampleDefaultParams.logIndex = none → e.logIndex = ⟨0, 0⟩) ∧
      (∀ lv, sampleDefaultParams.logIndex = some lv → (jsToNumber lv).isFinite = false →
        e.logIndex = ⟨0, 0⟩) ∧
      (sampleDefaultParams.blockNumber = none → e.blockNumber = ⟨0, 0⟩) ∧
      (∀ bv, sampleDefaultParams.blockNumber = some bv → (jsToNumber bv).isFinite = false →
        e.blockNumber = ⟨0, 0⟩) ∧
      (sampleDefaultParams.assetDecimals = none → e.assetDecimals = none) ∧
      (sampleDefaultParams.assetDecimals = some .nul → e.assetDecimals = none) ∧
      (∀ dv, sampleDefaultParams.assetDecimals = some dv → (jsToNumber dv).isFinite = false →
        e.assetDecimals = none) ∧
      (sampleDefaultParams.eventType = none → e.eventType = "UNKNOWN") :=
  normalizeEvent_defaults_nonidentity sampleDefaultParams "0xabc" (.str "123") ⟨123, 0⟩
    (by rfl) (by decide) (by rfl) (by decide) (by norm_num [JsRat.val])

/-! ### Schema configurations (subgraph.ts lines 33-99) -/

/-- Resolved names for the nested asset metadata roles
(`reserveFields`, `reserveNestedFields`, `positionMarketTokenFields`). -/
structure RoleFields where
  symbol : Option String := none
  underlyingAsset : Option String := none
  decimals : Option String := none
deriving DecidableEq

/-- Resolved names for the flat asset object of the Compound adapter. -/
structure AssetFields where
  id : Option String := none
  symbol : Option String := none
  decimals : Option String := none
deriving DecidableEq

/-- The `fields` role map of an `AaveSchemaConfig`. -/
structure AaveFields where
  id : Option String := none
  timestamp : Option String := none
  txHash : Option String := none
  logIndex : Option String := none
  blockNumber : Option String := none
  action : Option String := none
  amount : Option String := none
  amountUsd : Option String := none
deriving DecidableEq

/-- `AaveSchemaConfig` (subgraph.ts lines 57-99). -/
structure AaveSchemaConfig where
  queryField : String
  eventTypeName : String
  fields : AaveFields := {}
  whereUserField : Option String := none
  whereTimestampField : Option String := none
  directUserArg : Option String := none
  directTimestampArg : Option String := none
  requiresWhere : Bool := false
  orderByField : Option String := none
  reserveField : Option String := none
  assetField : Option String := none
  reserveNestedField : Option String := none
  reserveFields : Option RoleFields := none
  reserveNestedFields : Option RoleFields := none
  positionField : Option String := none
  positionMarketField : Option String := none
  positionMarketTokenField : Option String := none
  positionMarketTokenListField : Option String := none
  positionMarketTokenFields : Option RoleFields := none
  fallbackEventType : Option String := none
deriving DecidableEq

/-- The `fields` role map of a `CompoundSchemaConfig`. -/
structure CompoundFields where
  id : Option String := none
  timestamp : Option String := none
  txHash : Option String := none
  logIndex : Option String := none
  blockNumber : Option String := none
  eventType : Option String := none
  amount : Option String := none
  amountUsd : Option String := none
deriving DecidableEq

/-- `CompoundSchemaConfig` (subgraph.ts lines 33-55). -/
structure CompoundSchemaConfig where
  queryField : String
  eventTypeName : String
  fields : CompoundFields := {}
  whereAccountField : Option String := none
  whereTimestampField : Option String := none
  orderByField : Option String := none
  assetField : Option String := none
  assetFields : Option AssetFields := none
deriving DecidableEq

/-! ### Raw record extraction (subgraph.ts lines 362-500 and 1139-1176) -/

/-- A raw record of a page: the JSON object as a key/value list. -/
def RawRecord := List (String × JsVal)

/-- `raw[k]`: `undefined` (none) when the key is absent. -/
def getF (raw : RawRecord) (k : String) : Option JsVal :=
  ((raw : List (String × JsVal)).find? (fun p => p.1 = k)).map Prod.snd

/-- `key && raw[key] ? raw[key] : null`: a configured key that is truthy
selects the record field when that value is truthy. -/
def truthyGet (raw : RawRecord) (k : Option String) : Option JsVal :=
  match k with
  | none => none
  | some key =>
    if key = "" then none
    else
      match getF raw key with
      | some v => if jsTruthy v then some v else none
      | none => none

/-- A configured field name used in a truthiness test (`cfg.key ? ... `):
the empty string is falsy. -/
def fieldKey : Option String → Option String
  | some s => if s = "" then none else some s
  | none => none

/-- `cfg?.sel` used in a truthiness test: present and non-empty. -/
def keyOf {α : Type} (o : Option α) (sel : α → Option String) : Option String :=
  match o with
  | none => none
  | some f => fieldKey (sel f)

/-- `o?.[k] && typeof o[k] === "string" ? o[k] : (fall through)`. -/
def strProp (o : Option JsVal) (k : String) : Option String :=
  match o.bind (fun v => objGet v k) with
  | some (.str s) => if s = "" then none else some s
  | _ => none

/-- `o?.[k] && typeof o[k] === "number" ? o[k] : (fall through)`. -/
def numProp (o : Option JsVal) (k : String) : Option JsNum :=
  match o.bind (fun v => objGet v k) with
  | some (.num n) => if jsTruthy (.num n) then some n else none
  | _ => none

/-- Read a value whose GraphQL type serializes as a JSON string (ids,
hashes, labels, BigInt/BigDecimal amounts).  A non-string value here is
outside the endpoint contract and is modelled as absent. -/
def jsonStr : Option JsVal → Option String
  | some (.str s) => some s
  | _ => none

/-- ASCII lower-casing, `String.prototype.toLowerCase` on the names that
occur here. -/
def lowerStr (s : String) : String := String.mk (s.data.map Char.toLower)

/-- `startsWithChars pat l`: `pat` is a prefix of `l`. -/
def startsWithChars : List Char → List Char → Bool
  | [], _ => true
  | _ :: _, [] => false
  | a :: as, b :: bs => a = b && startsWithChars as bs

/-- `listContains s pat`: `pat` occurs as a contiguous run inside `s`
(`String.prototype.includes`). -/
def listContains : List Char → List Char → Bool
  | s, pat =>
    match s with
    | [] => pat.isEmpty
    | _ :: rest => startsWithChars pat s || listContains rest pat

/-- Per-record extraction of the Aave fetch loop (subgraph.ts lines
362-500): collapse the configured reserve / asset / position-market-token
shapes into `normalizeEvent` parameters. -/
def aaveExtract (schema : AaveSchemaConfig) (raw : RawRecord) : EventParams :=
  let reserveValue : Option JsVal := truthyGet raw schema.reserveField
  let assetValue : Option JsVal :=
    match truthyGet raw schema.assetField with
    | some v => some v
    | none =>
      match getF raw "asset" with
      | some v => if jsTruthy v && v.isObjLike then some v else none
      | none => none
  let positionValue : Option JsVal := truthyGet raw schema.positionField
  let position : Option JsVal :=
    match positionValue with
    | some v => if v.isObjLike then some v else none
    | none => none
  let positionMarket : Option JsVal :=
    match position, fieldKey schema.positionMarketField with
    | some pos, some mf =>
      match objGet pos mf with
      | some v => if jsTruthy v && v.isObjLike then some v else none
      | none => none
    | _, _ => none
  let positionTokenValue : Option JsVal :=
    match positionMarket, fieldKey schema.positionMarketTokenField with
    | some pm, some tf => objGet pm tf
    | _, _ =>
      match fieldKey schema.positionMarketTokenListField with
      | some tlf =>
        match positionMarket with
        | some pm => objGet pm tlf
        | none => none
      | none => none
  let positionToken : Option JsVal :=
    match positionTokenValue with
    | some (.arr xs) => xs.head?
    | some v => if jsTruthy v && v.isObjLike then some v else none
    | none => none
  let reserve : Option JsVal :=
    match reserveValue with
    | some v => if v.isObjLike then some v else none
    | none => none
  let asset : Option JsVal :=
    match assetValue with
    | some v => if v.isObjLike then some v else none
    | none => none
  let nestedReserve : Option JsVal :=
    match reserve, fieldKey schema.reserveNestedField with
    | some r, some nf =>
      match objGet r nf with
      | some nv =>
        if jsTruthy nv then
          match nv with
          | .arr xs => xs.head?
          | _ => some nv
        else none
      | none => none
    | _, _ => none
  let reserveAsString : Option String :=
    match reserveValue with
    | some (.str s) => some s
    | _ => none
  let txHash : String :=
    match (match fieldKey schema.fields.txHash with
      | some tf => jsonStr (getF raw tf)
      | none => none) with
    | some s => s
    | none => (jsonStr (getF raw "id")).getD ""
  { txHash := some txHash
    logIndex :=
      match fieldKey schema.fields.logIndex with
      | some k => getF raw k
      | none => none
    blockNumber :=
      match fieldKey schema.fields.blockNumber with
      | some k => getF raw k
      | none => none
    timestamp :=
      match fieldKey schema.fields.timestamp with
      | some k => getF raw k
      | none => none
    eventType :=
      match fieldKey schema.fields.action with
      | some k => jsonStr (getF raw k)
      | none => schema.fallbackEventType
    assetAddress :=
      match keyOf schema.reserveNestedFields (fun f => f.underlyingAsset) with
      | some k => jsonStr (nestedReserve.bind (fun r => objGet r k))
      | none =>
        match keyOf schema.reserveFields (fun f => f.underlyingAsset) with
        | some k => jsonStr (reserve.bind (fun r => objGet r k))
        | none =>
          match strProp reserve "id" with
          | some s => some s
          | none =>
            match strProp asset "id" with
            | some s => some s
            | none =>
              match keyOf schema.positionMarketTokenFields (fun f => f.underlyingAsset) with
              | some k => jsonStr (positionToken.bind (fun r => objGet r k))
              | none =>
                match strProp positionToken "id" with
                | some s => some s
                | none => reserveAsString
    assetSymbol :=
      match keyOf schema.reserveNestedFields (fun f => f.symbol) with
      | some k => jsonStr (nestedReserve.bind (fun r => objGet r k))
      | none =>
        match keyOf schema.reserveFields (fun f => f.symbol) with
        | some k => jsonStr (reserve.bind (fun r => objGet r k))
        | none =>
          match strProp reserve "symbol" with
          | some s => some s
          | none =>
            match strProp asset "symbol" with
            | some s => some s
            | none =>
              match keyOf schema.positionMarketTokenFields (fun f => f.symbol) with
              | some k => jsonStr (positionToken.bind (fun r => objGet r k))
              | none =>
                match strProp positionToken "symbol" with
                | some s => some s
                | none => none
    assetDecimals :=
      match keyOf schema.reserveNestedFields (fun f => f.decimals) with
      | some k => nestedReserve.bind (fun r => objGet r k)
      | none =>
        match keyOf schema.reserveFields (fun f => f.decimals) with
        | some k => reserve.bind (fun r => objGet r k)
        | none =>
          match numProp reserve "decimals" with
          | some n => some (.num n)
          | none =>
            match numProp asset "decimals" with
            | some n => some (.num n)
            | none =>
              match keyOf schema.positionMarketTokenFields (fun f => f.decimals) with
              | some k => positionToken.bind (fun r => objGet r k)
              | none =>
                match numProp positionToken "decimals" with
                | some n => some (.num n)
                | none => none
    amountRaw :=
      match fieldKey schema.fields.amount with
      | some k => jsonStr (getF raw k)
      | none => none
    amountUsdRaw :=
      match fieldKey schema.fields.amountUsd with
      | some k => jsonStr (getF raw k)
      | none => none }

/-- Per-record extraction of the Compound fetch loop (subgraph.ts lines
1139-1176). -/
def compoundExtract (schema : CompoundSchemaConfig) (raw : RawRecord) : EventParams :=
  let asset : Option JsVal := truthyGet raw schema.assetField
  let txHash : String :=
    match (match fieldKey schema.fields.txHash with
      | some tf => jsonStr (getF raw tf)
      | none => none) with
    | some s => s
    | none => (jsonStr (getF raw "id")).getD ""
  { txHash := some txHash
    logIndex :=
      match fieldKey schema.fields.logIndex with
      | some k => getF raw k
      | none => none
    blockNumber :=
      match fieldKey schema.fields.blockNumber with
      | some k => getF raw k
      | none => none
    timestamp :=
      match fieldKey schema.fields.timestamp with
      | some k => getF raw k
      | none => none
    eventType :=
      match fieldKey schema.fields.eventType with
      | some k => jsonStr (getF raw k)
      | none => none
    assetAddress :=
      match keyOf schema.assetFields (fun f => f.id) with
      | some k => jsonStr (asset.bind (fun a => objGet a k))
      | none => none
    assetSymbol :=
      match keyOf schema.assetFields (fun f => f.symbol) with
      | some k => jsonStr (asset.bind (fun a => objGet a k))
      | none => none
    assetDecimals :=
      match keyOf schema.assetFields (fun f => f.decimals) with
      | some k => asset.bind (fun a => objGet a k)
      | none => none
    amountRaw :=
      match fieldKey schema.fields.amount with
      | some k => jsonStr (getF raw k)
      | none => none
    amountUsdRaw :=
      match fieldKey schema.fields.amountUsd with
      | some k => jsonStr (getF raw k)
      | none => none }

/-! ### Pagination (subgraph.ts lines 266-528 and 1092-1186) -/

/-- The fixed page size (line 119). -/
def PAGE_SIZE : Nat := 1000

/-- The transport oracle for data queries: the records the endpoint
returns for one root query field at one skip offset.  The user address,
the from-timestamp and the built selection are fixed for one fetch call
and are absorbed into the oracle. -/
def PageOracle := String → Nat → List RawRecord

/-- `const limit = maxEvents && maxEvents > 0 ? maxEvents : null`
(lines 273 and 1126): zero is falsy, non-positive caps become null. -/
def computeLimit (maxEvents : Option Int) : Option Int :=
  match maxEvents with
  | some m => if m ≠ 0 ∧ 0 < m then some m else none
  | none => none

/-- `limit && events.length >= limit` (lines 502 and 1178). -/
def capHit (limit : Option Int) (len : Nat) : Bool :=
  match limit with
  | some l => !(l = 0) && decide (l ≤ (len : Int))
  | none => false

/-- `events.slice(0, limit)` (lines 517 and 1179). -/
def jsSliceCap (xs : List NormalizedEvent) (l : Int) : List NormalizedEvent :=
  if 0 ≤ l then xs.take l.toNat else xs.take (((xs.length : Int) + l).toNat)

/-- The per-record body of the batch loop: push each surviving normalized
event, and return early (`Bool` = true) with the list sliced to the cap as
soon as `limit && events.length >= limit`. -/
def pushLoop (limit : Option Int) :
    List (Option NormalizedEvent) → List NormalizedEvent →
      List NormalizedEvent × Bool
  | [], events => (events, false)
  | r :: rest, events =>
    let events2 :=
      match r with
      | some e => events ++ [e]
      | none => events
    if capHit limit events2.length then (jsSliceCap events2 (limit.getD 0), true)
    else pushLoop limit rest events2

/-- The `while (true)` pagination loop of `fetchAaveEvents` for one schema
(lines 352-522), with fuel.  Returns the accumulated events, the trace of
`(queryField, skip)` round trips, and whether the cap caused an early
return; `none` when the fuel is exhausted. -/
def aavePageLoop (pages : PageOracle) (schema : AaveSchemaConfig) (limit : Option Int) :
    Nat → Nat → List NormalizedEvent →
      Option (List NormalizedEvent × List (String × Nat) × Bool)
  | 0, _, _ => none
  | fuel + 1, skip, events =>
    let batch := pages schema.queryField skip
    let step := pushLoop limit
      (batch.map (fun raw => normalizeEvent (aaveExtract schema raw))) events
    if step.2 then some (step.1, [(schema.queryField, skip)], true)
    else if batch.length < PAGE_SIZE then some (step.1, [(schema.queryField, skip)], false)
    else
      match aavePageLoop pages schema limit fuel (skip + PAGE_SIZE) step.1 with
      | none => none
      | some (evs, reqs, hit) => some (evs, (schema.queryField, skip) :: reqs, hit)

/-- The `for (const schema of schemas)` loop of `fetchAaveEvents`
(lines 297-526): run the pagination loop per schema, return immediately on
a cap hit, and break when the accumulated count reaches the cap. -/
def aaveSchemasLoop (pages : PageOracle) (limit : Option Int) (fuel : Nat) :
    List AaveSchemaConfig → List NormalizedEvent →
      Option (List NormalizedEvent × List (String × Nat))
  | [], events => some (events, [])
  | schema :: rest, events =>
    match aavePageLoop pages schema limit fuel 0 events with
    | none => none
    | some (events2, reqs, hit) =>
      if hit then some (events2, reqs)
      else if capHit limit events2.length then some (events2, reqs)
      else
        match aaveSchemasLoop pages limit fuel rest events2 with
        | none => none
        | some (evs, reqs2) => some (evs, reqs ++ reqs2)

/-- `q.toLowerCase().includes("borrow") || q.toLowerCase().includes("repay")`
(line 277). -/
def wantBorrowRepay (q : String) : Bool :=
  listContains (lowerStr q).data "borrow".data ||
  listContains (lowerStr q).data "repay".data

/-- `[...schemas].sort(borrowFirst)` (lines 276-282): the comparator
orders by the boolean key `wantBorrowRepay` only, and `Array.prototype.sort`
is stable, so the sort is exactly the stable partition pulling the
borrow/repay-named query fields to the front. -/
def borrowFirstSort (schemas : List AaveSchemaConfig) : List AaveSchemaConfig :=
  schemas.filter (fun s => wantBorrowRepay s.queryField) ++
  schemas.filter (fun s => !(wantBorrowRepay s.queryField))

/-- `fetchAaveEvents` (lines 266-528) over the page oracle and the
resolved schema configs: compute the limit, sort borrow/repay first, and
run the schema loop starting from an empty event list. -/
def fetchAaveEvents (pages : PageOracle) (schemas : List AaveSchemaConfig)
    (maxEvents : Option Int) (fuel : Nat) :
    Option (List NormalizedEvent × List (String × Nat)) :=
  aaveSchemasLoop pages (computeLimit maxEvents) fuel (borrowFirstSort schemas) []

/-- The `while (true)` loop of `fetchCompoundEvents` (lines 1128-1184),
with fuel; the request trace lists the skip offsets fetched. -/
def compoundPageLoop (pages : PageOracle) (schema : CompoundSchemaConfig) (limit : Option Int) :
    Nat → Nat → List NormalizedEvent →
      Option (List NormalizedEvent × List Nat × Bool)
  | 0, _, _ => none
  | fuel + 1, skip, events =>
    let batch := pages schema.queryField skip
    let step := pushLoop limit
      (batch.map (fun raw => normalizeEvent (compoundExtract schema raw))) events
    if step.2 then some (step.1, [skip], true)
    else if batch.length < PAGE_SIZE then some (step.1, [skip], false)
    else
      match compoundPageLoop pages schema limit fuel (skip + PAGE_SIZE) step.1 with
      | none => none
      | some (evs, reqs, hit) => some (evs, skip :: reqs, hit)

/-- `fetchCompoundEvents` (lines 1092-1186) over the page oracle and the
resolved schema config. -/
def fetchCompoundEvents (pages : PageOracle) (schema : CompoundSchemaConfig)
    (maxEvents : Option Int) (fuel : Nat) :
    Option (List NormalizedEvent × List Nat) :=
  (compoundPageLoop pages schema (computeLimit maxEvents) fuel 0 []).map
    (fun r => (r.1, r.2.1))

/-! ### Fixtures for witnesses -/

/-- A minimal Aave schema config as discovery would produce for a flat
`transactions` field. -/
def sampleAaveConfig : AaveSchemaConfig :=
  { queryField := "transactions"
    eventTypeName := "Transaction"
    fields := { id := some "id", timestamp := some "timestamp", amount := some "amount" }
    orderByField := some "timestamp"
    fallbackEventType := some "transactions" }

/-- A minimal Compound schema config. -/
def sampleCompoundConfig : CompoundSchemaConfig :=
  { queryField := "accountEvents"
    eventTypeName := "AccountEvent"
    fields := { id := some "id", timestamp := some "timestamp", eventType := some "eventType" }
    orderByField := some "timestamp" }

/-- One raw record with an id and a timestamp string, as the subgraph
serializes them. -/
def sampleRecord (i ts : String) : RawRecord :=
  [("id", .str i), ("timestamp", .str ts), ("amount", .str "1000000")]

/-- A two-record endpoint: one short first page, nothing after. -/
def samplePages : PageOracle := fun _ skip =>
  if skip = 0 then [sampleRecord "a" "100", sampleRecord "b" "200"] else []

/-! ### C9: non-positive maxEvents means unbounded -/

/-- C9: a `maxEvents` of 0 (falsy) or any negative value makes the
internal limit null for both protocol families, so the fetch behaves
exactly like the uncapped fetch instead of returning an empty list. -/
theorem maxEvents_nonpositive_unbounded :
    (∀ m : Int, m ≤ 0 → computeLimit (some m) = none) ∧
    (∀ (pages : PageOracle) (schemas : List AaveSchemaConfig) (fuel : Nat) (m : Int),
      m ≤ 0 → fetchAaveEvents pages schemas (some m) fuel =
        fetchAaveEvents pages schemas none fuel) ∧
    (∀ (pages : PageOracle) (schema : CompoundSchemaConfig) (fuel : Nat) (m : Int),
      m ≤ 0 → fetchCompoundEvents pages schema (some m) fuel =
        fetchCompoundEvents pages schema none fuel) := by
  have hlim : ∀ m : Int, m ≤ 0 → computeLimit (some m) = none := by
    intro m hm
    unfold computeLimit
    dsimp only
    rw [if_neg (show ¬ (m ≠ 0 ∧ 0 < m) by omega)]
  refine ⟨hlim, ?_, ?_⟩
  · intro pages schemas fuel m hm
    unfold fetchAaveEvents
    rw [hlim m hm]
    rfl
  · intro pages schema fuel m hm
    unfold fetchCompoundEvents
    rw [hlim m hm]
    rfl

/-- Witness for C9 at concrete inputs: caps 0 and -3 behave like no cap on
a two-event endpoint. -/
theorem maxEvents_nonpositive_unbounded_witness :
    computeLimit (some 0) = none ∧
    fetchAaveEvents samplePages [sampleAaveConfig] (some (-3)) 2 =
      fetchAaveEvents samplePages [sampleAaveConfig] none 2 ∧
    fetchCompoundEvents samplePages sampleCompoundConfig (some 0) 2 =
      fetchCompoundEvents samplePages sampleCompoundConfig none 2 :=
  ⟨maxEvents_nonpositive_unbounded.1 0 (by omega),
   maxEvents_nonpositive_unbounded.2.1 samplePages [sampleAaveConfig] 2 (-3) (by omega),
   maxEvents_nonpositive_unbounded.2.2 samplePages sampleCompoundConfig 2 0 (by omega)⟩

/-! ### C1: invalid rows are dropped, the output stream is clean -/

/-- The §3 output invariant: non-empty transaction identity and a strictly
positive timestamp. -/
def validEvent (e : NormalizedEvent) : Prop :=
  e.txHash ≠ "" ∧ 0 < e.timestamp.val

theorem pushLoop_valid (limit : Option Int) (rs : List (Option NormalizedEvent)) :
    ∀ events : List NormalizedEvent, (∀ e ∈ events, validEvent e) →
    (∀ r ∈ rs, ∀ e, r = some e → validEvent e) →
    ∀ e ∈ (pushLoop limit rs events).1, validEvent e := by
  induction rs with
  | nil =>
    intro events hev _ e he
    exact hev e he
  | cons r rest ih =>
    intro events hev hrs e he
    unfold pushLoop at he
    have hev2 : ∀ x ∈ (match r with
        | some e0 => events ++ [e0]
        | none => events), validEvent x := by
      cases r with
      | some e0 =>
        intro x hx
        rcases List.mem_append.mp hx with hx | hx
        · exact hev x hx
        · have : x = e0 := by simpa using hx
          subst this
          exact hrs (some x) (List.mem_cons_self _ _) x rfl
      | none => exact hev
    by_cases hcap : capHit limit (match r with
        | some e0 => events ++ [e0]
        | none => events).length = true
    · rw [if_pos hcap] at he
      have : e ∈ (match r with
          | some e0 => events ++ [e0]
          | none => events) := by
        unfold jsSliceCap at he
        dsimp only at he
        by_cases h0 : (0 : Int) ≤ limit.getD 0
        · rw [if_pos h0] at he
          exact List.take_subset _ _ he
        · rw [if_neg h0] at he
          exact List.take_subset _ _ he
      exact hev2 e this
    · rw [if_neg hcap] at he
      exact ih _ hev2 (fun x hx => hrs x (List.mem_cons_of_mem _ hx)) e he

theorem aavePageLoop_valid (pages : PageOracle) (schema : AaveSchemaConfig)
    (limit : Option Int) :
    ∀ (fuel skip : Nat) (events : List NormalizedEvent),
    (∀ e ∈ events, validEvent e) →
    ∀ out, aavePageLoop pages schema limit fuel skip events = some out →
    ∀ e ∈ out.1, validEvent e := by
  intro fuel
  induction fuel with
  | zero => intro skip events _ out hout; exact absurd hout (by simp [aavePageLoop])
  | succ f ih =>
    intro skip events hev out hout
    unfold aavePageLoop at hout
    have hstep : ∀ e ∈ (pushLoop limit
        ((pages schema.queryField skip).map
          (fun raw => normalizeEvent (aaveExtract schema raw))) events).1, validEvent e := by
      apply pushLoop_valid _ _ _ hev
      intro r hr e hre
      rw [List.mem_map] at hr
      obtain ⟨raw, _, hraw⟩ := hr
      subst hraw
      exact normalizeEvent_some_valid _ _ hre
    by_cases h2 : (pushLoop limit
        ((pages schema.queryField skip).map
          (fun raw => normalizeEvent (aaveExtract schema raw))) events).2 = true
    · rw [if_pos h2] at hout
      cases hout
      exact hstep
    · rw [if_neg h2] at hout
      by_cases hshort : (pages schema.queryField skip).length < PAGE_SIZE
      · rw [if_pos hshort] at hout
        cases hout
        exact hstep
      · rw [if_neg hshort] at hout
        cases hrec : aavePageLoop pages schema limit f (skip + PAGE_SIZE)
            (pushLoop limit
              ((pages schema.queryField skip).map
                (fun raw => normalizeEvent (aaveExtract schema raw))) events).1 with
        | none => rw [hrec] at hout; exact absurd hout (by simp)
        | some out2 =>
          rw [hrec] at hout
          have hv := ih (skip + PAGE_SIZE) _ hstep out2 hrec
          cases hout
          exact hv

theorem aaveSchemasLoop_valid (pages : PageOracle) (limit : Option Int) (fuel : Nat) :
    ∀ (schemas : List AaveSchemaConfig) (events : List NormalizedEvent),
    (∀ e ∈ events, validEvent e) →
    ∀ out, aaveSchemasLoop pages limit fuel schemas events = some out →
    ∀ e ∈ out.1, validEvent e := by
  intro schemas
  induction schemas with
  | nil =>
    intro events hev out hout
    cases hout
    exact hev
  | cons s rest ih =>
    intro events hev out hout
    unfold aaveSchemasLoop at hout
    cases hpl : aavePageLoop pages s limit fuel 0 events with
    | none => rw [hpl] at hout; exact absurd hout (by simp)
    | some res =>
      obtain ⟨events2, reqs, hit⟩ := res
      rw [hpl] at hout
      have hres := aavePageLoop_valid pages s limit fuel 0 events hev _ hpl
      dsimp only at hout hres
      by_cases hhit : hit = true
      · rw [if_pos hhit] at hout
        cases hout
        exact hres
      · rw [if_neg hhit] at hout
        by_cases hcap : capHit limit events2.length = true
        · rw [if_pos hcap] at hout
          cases hout
          exact hres
        · rw [if_neg hcap] at hout
          cases hrec : aaveSchemasLoop pages limit fuel rest events2 with
          | none => rw [hrec] at hout; exact absurd hout (by simp)
          | some out2 =>
            rw [hrec] at hout
            have hv := ih events2 hres out2 hrec
            cases hout
            exact hv

theorem compoundPageLoop_valid (pages : PageOracle) (schema : CompoundSchemaConfig)
    (limit : Option Int) :
    ∀ (fuel skip : Nat) (events : List NormalizedEvent),
    (∀ e ∈ events, validEvent e) →
    ∀ out, compoundPageLoop pages schema limit fuel skip events = some out →
    ∀ e ∈ out.1, validEvent e := by
  intro fuel
  induction fuel with
  | zero => intro skip events _ out hout; exact absurd hout (by simp [compoundPageLoop])
  | succ f ih =>
    intro skip events hev out hout
    unfold compoundPageLoop at hout
    have hstep : ∀ e ∈ (pushLoop limit
        ((pages schema.queryField skip).map
          (fun raw => normalizeEvent (compoundExtract schema raw))) events).1, validEvent e := by
      apply pushLoop_valid _ _ _ hev
      intro r hr e hre
      rw [List.mem_map] at hr
      obtain ⟨raw, _, hraw⟩ := hr
      subst hraw
      exact normalizeEvent_some_valid _ _ hre
    by_cases h2 : (pushLoop limit
        ((pages schema.queryField skip).map
          (fun raw => normalizeEvent (compoundExtract schema raw))) events).2 = true
    · rw [if_pos h2] at hout
      cases hout
      exact hstep
    · rw [if_neg h2] at hout
      by_cases hshort : (pages schema.queryField skip).length < PAGE_SIZE
      · rw [if_pos hshort] at hout
        cases hout
        exact hstep
      · rw [if_neg hshort] at hout
        cases hrec : compoundPageLoop pages schema limit f (skip + PAGE_SIZE)
            (pushLoop limit
              ((pages schema.queryField skip).map
                (fun raw => normalizeEvent (compoundExtract schema raw))) events).1 with
        | none => rw [hrec] at hout; exact absurd hout (by simp)
        | some out2 =>
          rw [hrec] at hout
          have hv := ih (skip + PAGE_SIZE) _ hstep out2 hrec
          cases hout
          exact hv

/-- C1: a raw record with an empty or absent transaction identity, or
with a missing, zero, negative or non-finite timestamp, is dropped
(`normalizeEvent` returns null); consequently every event returned by the
fetch entry points of both protocol families has a non-empty transaction
hash and a strictly positive timestamp. -/
theorem normalizeEvent_invalid_dropped :
    (∀ p : EventParams, p.txHash = none ∨ p.txHash = some "" →
      normalizeEvent p = none) ∧
    (∀ p : EventParams, timestampRejected p → normalizeEvent p = none) ∧
    (∀ (pages : PageOracle) (schemas : List AaveSchemaConfig)
      (maxEvents : Option Int) (fuel : Nat) out,
      fetchAaveEvents pages schemas maxEvents fuel = some out →
      ∀ e ∈ out.1, e.txHash ≠ "" ∧ 0 < e.timestamp.val) ∧
    (∀ (pages : PageOracle) (schema : CompoundSchemaConfig)
      (maxEvents : Option Int) (fuel : Nat) out,
      fetchCompoundEvents pages schema maxEvents fuel = some out →
      ∀ e ∈ out.1, e.txHash ≠ "" ∧ 0 < e.timestamp.val) := by
  refine ⟨normalizeEvent_none_of_no_txHash, normalizeEvent_none_of_timestampRejected, ?_, ?_⟩
  · intro pages schemas maxEvents fuel out hout e he
    exact aaveSchemasLoop_valid pages (computeLimit maxEvents) fuel
      (borrowFirstSort schemas) [] (by simp) out hout e he
  · intro pages schema maxEvents fuel out hout e he
    unfold fetchCompoundEvents at hout
    cases hpl : compoundPageLoop pages schema (computeLimit maxEvents) fuel 0 [] with
    | none => rw [hpl] at hout; exact absurd hout (by simp)
    | some res =>
      rw [hpl] at hout
      have hv := compoundPageLoop_valid pages schema (computeLimit maxEvents) fuel 0 []
        (by simp) res hpl
      cases hout
      exact hv e he

/-- Witness for C1: a record with no hash and one with a zero timestamp
are dropped, and a concrete two-event fetch returns only valid events. -/
theorem normalizeEvent_invalid_dropped_witness :
    normalizeEvent { txHash := none } = none ∧
    normalizeEvent { txHash := some "0xabc", timestamp := some (.str "0") } = none ∧
    (∀ e ∈ ((fetchAaveEvents samplePages [sampleAaveConfig] none 2).getD ([], [])).1,
      e.txHash ≠ "" ∧ 0 < e.timestamp.val) :=
  ⟨normalizeEvent_invalid_dropped.1 { txHash := none } (Or.inl rfl),
   normalizeEvent_invalid_dropped.2.1
     { txHash := some "0xabc", timestamp := some (.str "0") }
     (show (JsRat.mk 0 0).val ≤ 0 by norm_num [JsRat.val]),
   fun e he => normalizeEvent_invalid_dropped.2.2.1 samplePages [sampleAaveConfig] none 2
     ((fetchAaveEvents samplePages [sampleAaveConfig] none 2).getD ([], [])) (by decide) e he⟩

/-! ### C2 lemmas: cap bound and short-page stop -/

theorem pushLoop_no_cap (rs : List (Option NormalizedEvent)) :
    ∀ events, pushLoop none rs events = (events ++ rs.filterMap id, false) := by
  induction rs with
  | nil =>
    intro events
    simp [pushLoop]
  | cons r rest ih =>
    intro events
    cases r with
    | some e =>
      unfold pushLoop
      dsimp only
      rw [if_neg (show ¬ (capHit none (events ++ [e]).length = true) by simp [capHit])]
      rw [ih]
      simp
    | none =>
      unfold pushLoop
      dsimp only
      rw [if_neg (show ¬ (capHit none events.length = true) by simp [capHit])]
      rw [ih]
      simp

theorem pushLoop_cap_bound (l : Int) (hl : 0 < l) (rs : List (Option NormalizedEvent)) :
    ∀ events : List NormalizedEvent, events.length < l.toNat →
      (pushLoop (some l) rs events).1.length ≤ l.toNat ∧
      ((pushLoop (some l) rs events).2 = false →
        (pushLoop (some l) rs events).1.length < l.toNat) := by
  induction rs with
  | nil =>
    intro events h
    simp only [pushLoop]
    exact ⟨Nat.le_of_lt h, fun _ => h⟩
  | cons r rest ih =>
    intro events h
    unfold pushLoop
    dsimp only
    by_cases hcap : capHit (some l)
        (match r with
        | some e => events ++ [e]
        | none => events).length = true
    · rw [if_pos hcap]
      dsimp only
      refine ⟨?_, fun hc => by simp at hc⟩
      unfold jsSliceCap
      rw [show ((some l : Option Int).getD 0) = l from rfl,
        if_pos (by omega : (0 : Int) ≤ l)]
      simp only [List.length_take]
      omega
    · rw [if_neg hcap]
      apply ih
      have hlen2 : (match r with
          | some e => events ++ [e]
          | none => events).length ≤ events.length + 1 := by
        cases r <;> simp
      unfold capHit at hcap
      simp only [Bool.and_eq_true, Bool.not_eq_true', decide_eq_true_eq, not_and] at hcap
      by_cases hz : l = 0
      · omega
      · have := hcap (by simpa using hz)
        omega

theorem aavePageLoop_cap_bound (pages : PageOracle) (schema : AaveSchemaConfig)
    (l : Int) (hl : 0 < l) :
    ∀ (fuel skip : Nat) (events : List NormalizedEvent), events.length < l.toNat →
    ∀ out, aavePageLoop pages schema (some l) fuel skip events = some out →
      out.1.length ≤ l.toNat ∧ (out.2.2 = false → out.1.length < l.toNat) := by
  intro fuel
  induction fuel with
  | zero => intro skip events _ out hout; exact absurd hout (by simp [aavePageLoop])
  | succ f ih =>
    intro skip events h out hout
    unfold aavePageLoop at hout
    obtain ⟨hle, hlt⟩ := pushLoop_cap_bound l hl
      ((pages schema.queryField skip).map
        (fun raw => normalizeEvent (aaveExtract schema raw))) events h
    by_cases h2 : (pushLoop (some l)
        ((pages schema.queryField skip).map
          (fun raw => normalizeEvent (aaveExtract schema raw))) events).2 = true
    · rw [if_pos h2] at hout
      cases hout
      exact ⟨hle, fun hc => by simp at hc⟩
    · rw [if_neg h2] at hout
      by_cases hshort : (pages schema.queryField skip).length < PAGE_SIZE
      · rw [if_pos hshort] at hout
        cases hout
        exact ⟨hle, fun _ => hlt (by simpa using h2)⟩
      · rw [if_neg hshort] at hout
        cases hrec : aavePageLoop pages schema (some l) f (skip + PAGE_SIZE)
            (pushLoop (some l)
              ((pages schema.queryField skip).map
                (fun raw => normalizeEvent (aaveExtract schema raw))) events).1 with
        | none => rw [hrec] at hout; exact absurd hout (by simp)
        | some out2 =>
          rw [hrec] at hout
          obtain ⟨hle2, hlt2⟩ := ih (skip + PAGE_SIZE) _ (hlt (by simpa using h2)) out2 hrec
          obtain ⟨evs, reqs, hit⟩ := out2
          cases hout
          exact ⟨hle2, hlt2⟩

theorem compoundPageLoop_cap_bound (pages : PageOracle) (schema : CompoundSchemaConfig)
    (l : Int) (hl : 0 < l) :
    ∀ (fuel skip : Nat) (events : List NormalizedEvent), events.length < l.toNat →
    ∀ out, compoundPageLoop pages schema (some l) fuel skip events = some out →
      out.1.length ≤ l.toNat ∧ (out.2.2 = false → out.1.length < l.toNat) := by
  intro fuel
  induction fuel with
  | zero => intro skip events _ out hout; exact absurd hout (by simp [compoundPageLoop])
  | succ f ih =>
    intro skip events h out hout
    unfold compoundPageLoop at hout
    obtain ⟨hle, hlt⟩ := pushLoop_cap_bound l hl
      ((pages schema.queryField skip).map
        (fun raw => normalizeEvent (compoundExtract schema raw))) events h
    by_cases h2 : (pushLoop (some l)
        ((pages schema.queryField skip).map
          (fun raw => normalizeEvent (compoundExtract schema raw))) events).2 = true
    · rw [if_pos h2] at hout
      cases hout
      exact ⟨hle, fun hc => by simp at hc⟩
    · rw [if_neg h2] at hout
      by_cases hshort : (pages schema.queryField skip).length < PAGE_SIZE
      · rw [if_pos hshort] at hout
        cases hout
        exact ⟨hle, fun _ => hlt (by simpa using h2)⟩
      · rw [if_neg hshort] at hout
        cases hrec : compoundPageLoop pages schema (some l) f (skip + PAGE_SIZE)
            (pushLoop (some l)
              ((pages schema.queryField skip).map
                (fun raw => normalizeEvent (compoundExtract schema raw))) events).1 with
        | none => rw [hrec] at hout; exact absurd hout (by simp)
        | some out2 =>
          rw [hrec] at hout
          obtain ⟨hle2, hlt2⟩ := ih (skip + PAGE_SIZE) _ (hlt (by simpa using h2)) out2 hrec
          obtain ⟨evs, reqs, hit⟩ := out2
          cases hout
          exact ⟨hle2, hlt2⟩

theorem aaveSchemasLoop_cap_bound (pages : PageOracle) (l : Int) (hl : 0 < l) (fuel : Nat) :
    ∀ (schemas : List AaveSchemaConfig) (events : List NormalizedEvent),
    events.length < l.toNat →
    ∀ out, aaveSchemasLoop pages (some l) fuel schemas events = some out →
      out.1.length ≤ l.toNat := by
  intro schemas
  induction schemas with
  | nil =>
    intro events h out hout
    cases hout
    exact Nat.le_of_lt h
  | cons s rest ih =>
    intro events h out hout
    unfold aaveSchemasLoop at hout
    cases hpl : aavePageLoop pages s (some l) fuel 0 events with
    | none => rw [hpl] at hout; exact absurd hout (by simp)
    | some res =>
      obtain ⟨events2, reqs, hit⟩ := res
      rw [hpl] at hout
      obtain ⟨hle, hlt⟩ := aavePageLoop_cap_bound pages s l hl fuel 0 events h _ hpl
      dsimp only at hout hle hlt
      by_cases hhit : hit = true
      · rw [if_pos hhit] at hout
        cases hout
        exact hle
      · rw [if_neg hhit] at hout
        by_cases hcap : capHit (some l) events2.length = true
        · rw [if_pos hcap] at hout
          cases hout
          exact hle
        · rw [if_neg hcap] at hout
          cases hrec : aaveSchemasLoop pages (some l) fuel rest events2 with
          | none => rw [hrec] at hout; exact absurd hout (by simp)
          | some out2 =>
            rw [hrec] at hout
            have hv := ih events2 (hlt (by simpa using hhit)) out2 hrec
            cases hout
            exact hv

theorem aavePageLoop_short_trace (pages : PageOracle) (schema : AaveSchemaConfig) :
    ∀ (k skip : Nat) (events : List NormalizedEvent) (fuel : Nat), k < fuel →
    (∀ j, j < k → PAGE_SIZE ≤ (pages schema.queryField (skip + j * PAGE_SIZE)).length) →
    (pages schema.queryField (skip + k * PAGE_SIZE)).length < PAGE_SIZE →
    ∃ evs, aavePageLoop pages schema none fuel skip events =
      some (evs, (List.range (k + 1)).map (fun j => (schema.queryField, skip + j * PAGE_SIZE)),
        false) := by
  intro k
  induction k with
  | zero =>
    intro skip events fuel hf hlong hshort
    obtain ⟨f, rfl⟩ : ∃ f, fuel = f + 1 := ⟨fuel - 1, by omega⟩
    have h0 : skip + 0 * PAGE_SIZE = skip := by omega
    rw [h0] at hshort
    unfold aavePageLoop
    dsimp only
    rw [pushLoop_no_cap]
    dsimp only
    rw [if_neg (by simp), if_pos hshort]
    have hmap : (List.range (0 + 1)).map
        (fun j => (schema.queryField, skip + j * PAGE_SIZE)) =
        [(schema.queryField, skip)] := by
      rw [show List.range 1 = [0] from rfl]
      simp
    rw [hmap]
    exact ⟨_, rfl⟩
  | succ k ih =>
    intro skip events fuel hf hlong hshort
    obtain ⟨f, rfl⟩ : ∃ f, fuel = f + 1 := ⟨fuel - 1, by omega⟩
    unfold aavePageLoop
    dsimp only
    rw [pushLoop_no_cap]
    dsimp only
    rw [if_neg (by simp)]
    have hfirst : ¬ ((pages schema.queryField skip).length < PAGE_SIZE) := by
      have h00 := hlong 0 (by omega)
      rw [show skip + 0 * PAGE_SIZE = skip by omega] at h00
      omega
    rw [if_neg hfirst]
    have hlong2 : ∀ j, j < k →
        PAGE_SIZE ≤ (pages schema.queryField ((skip + PAGE_SIZE) + j * PAGE_SIZE)).length := by
      intro j hj
      rw [show skip + PAGE_SIZE + j * PAGE_SIZE = skip + (j + 1) * PAGE_SIZE by ring]
      exact hlong (j + 1) (by omega)
    have hshort2 :
        (pages schema.queryField ((skip + PAGE_SIZE) + k * PAGE_SIZE)).length < PAGE_SIZE := by
      rw [show skip + PAGE_SIZE + k * PAGE_SIZE = skip + (k + 1) * PAGE_SIZE by ring]
      exact hshort
    obtain ⟨evs, hrec⟩ := ih (skip + PAGE_SIZE) _ f (by omega) hlong2 hshort2
    rw [hrec]
    dsimp only
    have hmap : (List.range (k + 1 + 1)).map
        (fun j => (schema.queryField, skip + j * PAGE_SIZE)) =
        (schema.queryField, skip) ::
          (List.range (k + 1)).map
            (fun j => (schema.queryField, skip + PAGE_SIZE + j * PAGE_SIZE)) := by
      have htail : ∀ a ∈ List.range (k + 1),
          ((fun j => (schema.queryField, skip + j * PAGE_SIZE)) ∘ Nat.succ) a =
          (fun j => (schema.queryField, skip + PAGE_SIZE + j * PAGE_SIZE)) a := by
        intro a ha
        show (schema.queryField, skip + (a + 1) * PAGE_SIZE) =
          (schema.queryField, skip + PAGE_SIZE + a * PAGE_SIZE)
        rw [Prod.mk.injEq]
        exact ⟨rfl, by ring⟩
      rw [List.range_succ_eq_map, List.map_cons, List.map_map,
        List.map_congr_left htail]
      simp
    rw [hmap]
    exact ⟨evs, rfl⟩

theorem compoundPageLoop_short_trace (pages : PageOracle) (schema : CompoundSchemaConfig) :
    ∀ (k skip : Nat) (events : List NormalizedEvent) (fuel : Nat), k < fuel →
    (∀ j, j < k → PAGE_SIZE ≤ (pages schema.queryField (skip + j * PAGE_SIZE)).length) →
    (pages schema.queryField (skip + k * PAGE_SIZE)).length < PAGE_SIZE →
    ∃ evs, compoundPageLoop pages schema none fuel skip events =
      some (evs, (List.range (k + 1)).map (fun j => skip + j * PAGE_SIZE), false) := by
  intro k
  induction k with
  | zero =>
    intro skip events fuel hf hlong hshort
    obtain ⟨f, rfl⟩ : ∃ f, fuel = f + 1 := ⟨fuel - 1, by omega⟩
    have h0 : skip + 0 * PAGE_SIZE = skip := by omega
    rw [h0] at hshort
    unfold compoundPageLoop
    dsimp only
    rw [pushLoop_no_cap]
    dsimp only
    rw [if_neg (by simp), if_pos hshort]
    have hmap : (List.range (0 + 1)).map (fun j => skip + j * PAGE_SIZE) = [skip] := by
      rw [show List.range 1 = [0] from rfl]
      simp
    rw [hmap]
    exact ⟨_, rfl⟩
  | succ k ih =>
    intro skip events fuel hf hlong hshort
    obtain ⟨f, rfl⟩ : ∃ f, fuel = f + 1 := ⟨fuel - 1, by omega⟩
    unfold compoundPageLoop
    dsimp only
    rw [pushLoop_no_cap]
    dsimp only
    rw [if_neg (by simp)]
    have hfirst : ¬ ((pages schema.queryField skip).length < PAGE_SIZE) := by
      have h00 := hlong 0 (by omega)
      rw [show skip + 0 * PAGE_SIZE = skip by omega] at h00
      omega
    rw [if_neg hfirst]
    have hlong2 : ∀ j, j < k →
        PAGE_SIZE ≤ (pages schema.queryField ((skip + PAGE_SIZE) + j * PAGE_SIZE)).length := by
      intro j hj
      rw [show skip + PAGE_SIZE + j * PAGE_SIZE = skip + (j + 1) * PAGE_SIZE by ring]
      exact hlong (j + 1) (by omega)
    have hshort2 :
        (pages schema.queryField ((skip + PAGE_SIZE) + k * PAGE_SIZE)).length < PAGE_SIZE := by
      rw [show skip + PAGE_SIZE + k * PAGE_SIZE = skip + (k + 1) * PAGE_SIZE by ring]
      exact hshort
    obtain ⟨evs, hrec⟩ := ih (skip + PAGE_SIZE) _ f (by omega) hlong2 hshort2
    rw [hrec]
    dsimp only
    have hmap : (List.range (k + 1 + 1)).map (fun j => skip + j * PAGE_SIZE) =
        skip :: (List.range (k + 1)).map (fun j => skip + PAGE_SIZE + j * PAGE_SIZE) := by
      have htail : ∀ a ∈ List.range (k + 1),
          ((fun j => skip + j * PAGE_SIZE) ∘ Nat.succ) a =
          (fun j => skip + PAGE_SIZE + j * PAGE_SIZE) a := by
        intro a ha
        show skip + (a + 1) * PAGE_SIZE = skip + PAGE_SIZE + a * PAGE_SIZE
        ring
      rw [List.range_succ_eq_map, List.map_cons, List.map_map,
        List.map_congr_left htail]
      simp
    rw [hmap]
    exact ⟨evs, rfl⟩

/-- C2: (i, ii) with a positive `maxEvents` cap the returned event list of
either family never exceeds the cap (final page truncated by the slice);
(iii, iv) without a cap, pagination for one query field issues exactly the
consecutive skips `0, PAGE_SIZE, ...` up to and including the first page
shorter than `PAGE_SIZE`, and stops there; (v) when the cap is hit, the
Aave schema loop returns immediately without touching the remaining
Schema Configs; (vi) when the cap is hit inside a batch, the page loop
returns at once without fetching further pages. -/
theorem pagination_cap_and_short_page :
    (∀ (pages : PageOracle) (schemas : List AaveSchemaConfig) (m : Int) (fuel : Nat) out,
      0 < m → fetchAaveEvents pages schemas (some m) fuel = some out →
      out.1.length ≤ m.toNat) ∧
    (∀ (pages : PageOracle) (schema : CompoundSchemaConfig) (m : Int) (fuel : Nat) out,
      0 < m → fetchCompoundEvents pages schema (some m) fuel = some out →
      out.1.length ≤ m.toNat) ∧
    (∀ (pages : PageOracle) (schema : AaveSchemaConfig) (k skip : Nat)
      (events : List NormalizedEvent) (fuel : Nat), k < fuel →
      (∀ j, j < k → PAGE_SIZE ≤ (pages schema.queryField (skip + j * PAGE_SIZE)).length) →
      (pages schema.queryField (skip + k * PAGE_SIZE)).length < PAGE_SIZE →
      ∃ evs, aavePageLoop pages schema none fuel skip events =
        some (evs,
          (List.range (k + 1)).map (fun j => (schema.queryField, skip + j * PAGE_SIZE)),
          false)) ∧
    (∀ (pages : PageOracle) (schema : CompoundSchemaConfig) (k skip : Nat)
      (events : List NormalizedEvent) (fuel : Nat), k < fuel →
      (∀ j, j < k → PAGE_SIZE ≤ (pages schema.queryField (skip + j * PAGE_SIZE)).length) →
      (pages schema.queryField (skip + k * PAGE_SIZE)).length < PAGE_SIZE →
      ∃ evs, compoundPageLoop pages schema none fuel skip events =
        some (evs, (List.range (k + 1)).map (fun j => skip + j * PAGE_SIZE), false)) ∧
    (∀ (pages : PageOracle) (s : AaveSchemaConfig) (rest : List AaveSchemaConfig)
      (limit : Option Int) (fuel : Nat) (events evs : List NormalizedEvent)
      (reqs : List (String × Nat)),
      aavePageLoop pages s limit fuel 0 events = some (evs, reqs, true) →
      aaveSchemasLoop pages limit fuel (s :: rest) events = some (evs, reqs)) ∧
    (∀ (pages : PageOracle) (schema : AaveSchemaConfig) (limit : Option Int)
      (fuel skip : Nat) (events : List NormalizedEvent),
      (pushLoop limit
        ((pages schema.queryField skip).map
          (fun raw => normalizeEvent (aaveExtract schema raw))) events).2 = true →
      aavePageLoop pages schema limit (fuel + 1) skip events =
        some ((pushLoop limit
          ((pages schema.queryField skip).map
            (fun raw => normalizeEvent (aaveExtract schema raw))) events).1,
          [(schema.queryField, skip)], true)) := by
  refine ⟨?_, ?_, ?_, ?_, ?_, ?_⟩
  · intro pages schemas m fuel out hm hout
    unfold fetchAaveEvents at hout
    rw [show computeLimit (some m) = some m by
      unfold computeLimit
      dsimp only
      rw [if_pos ⟨by omega, hm⟩]] at hout
    exact aaveSchemasLoop_cap_bound pages m hm fuel (borrowFirstSort schemas) []
      (by simp; omega) out hout
  · intro pages schema m fuel out hm hout
    unfold fetchCompoundEvents at hout
    rw [show computeLimit (some m) = some m by
      unfold computeLimit
      dsimp only
      rw [if_pos ⟨by omega, hm⟩]] at hout
    cases hpl : compoundPageLoop pages schema (some m) fuel 0 [] with
    | none => rw [hpl] at hout; exact absurd hout (by simp)
    | some res =>
      rw [hpl] at hout
      obtain ⟨hle, _⟩ := compoundPageLoop_cap_bound pages schema m hm fuel 0 []
        (by simp; omega) res hpl
      cases hout
      exact hle
  · intro pages schema k skip events fuel hf hlong hshort
    exact aavePageLoop_short_trace pages schema k skip events fuel hf hlong hshort
  · intro pages schema k skip events fuel hf hlong hshort
    exact compoundPageLoop_short_trace pages schema k skip events fuel hf hlong hshort
  · intro pages s rest limit fuel events evs reqs hpl
    unfold aaveSchemasLoop
    rw [hpl]
    rfl
  · intro pages schema limit fuel skip events hhit
    unfold aavePageLoop
    dsimp only
    rw [if_pos hhit]

/-- The normalized event of `sampleRecord "a" "100"` under
`sampleAaveConfig`. -/
def sampleEventA : NormalizedEvent :=
  { txHash := "a"
    logIndex := ⟨0, 0⟩
    blockNumber := ⟨0, 0⟩
    timestamp := ⟨100, 0⟩
    eventType := "transactions"
    assetAddress := none
    assetSymbol := none
    assetDecimals := none
    amountRaw := some "1000000"
    amount := some "1000000"
    amountUsdRaw := none }

/-- Witness for C2 at concrete inputs: a cap of one on a two-record page
returns one event; the uncapped run stops at the first (short) page with
the single request at skip 0; a cap hit returns without any further
request or config. -/
theorem pagination_cap_and_short_page_witness :
    ((fetchAaveEvents samplePages [sampleAaveConfig] (some 1) 1).getD ([], [])).1.length ≤
      (1 : Int).toNat ∧
    ((fetchCompoundEvents samplePages sampleCompoundConfig (some 1) 1).getD ([], [])).1.length ≤
      (1 : Int).toNat ∧
    (∃ evs, aavePageLoop samplePages sampleAaveConfig none 1 0 [] =
      some (evs,
        (List.range 1).map (fun j => (sampleAaveConfig.queryField, 0 + j * PAGE_SIZE)),
        false)) ∧
    (∃ evs, compoundPageLoop samplePages sampleCompoundConfig none 1 0 [] =
      some (evs, (List.range 1).map (fun j => 0 + j * PAGE_SIZE), false)) ∧
    aaveSchemasLoop samplePages (some 1) 1 [sampleAaveConfig, sampleAaveConfig] [] =
      some ([sampleEventA], [("transactions", 0)]) := by
  refine ⟨?_, ?_, ?_, ?_, ?_⟩
  · exact pagination_cap_and_short_page.1 samplePages [sampleAaveConfig] 1 1 _
      (by omega) (by decide)
  · exact pagination_cap_and_short_page.2.1 samplePages sampleCompoundConfig 1 1 _
      (by omega) (by decide)
  · exact pagination_cap_and_short_page.2.2.1 samplePages sampleAaveConfig 0 0 [] 1
      (by omega) (fun j hj => absurd hj (by omega)) (by decide)
  · exact pagination_cap_and_short_page.2.2.2.1 samplePages sampleCompoundConfig 0 0 [] 1
      (by omega) (fun j hj => absurd hj (by omega)) (by decide)
  · exact pagination_cap_and_short_page.2.2.2.2.1 samplePages sampleAaveConfig
      [sampleAaveConfig] (some 1) 1 [] [sampleEventA] [("transactions", 0)] (by decide)

/-! ### Schema introspection model (subgraph.ts lines 21-31, 158-190,
530-1013, 1188-1355) -/

/-- A GraphQL type reference: a named type possibly wrapped in NON_NULL /
LIST modifiers. -/
inductive TypeRef where
  | mk (kind : String) (name : Option String) (ofType : Option TypeRef)

def TypeRef.kind : TypeRef → String
  | .mk k _ _ => k

/-- An argument of a root query field. -/
structure ArgInfo where
  name : String
  type : TypeRef

/-- A root query field as introspection reports it. -/
structure QueryFieldInfo where
  name : String
  args : List ArgInfo := []
  type : TypeRef

/-- A field of a named type. -/
structure NamedField where
  name : String
  type : TypeRef

/-- The introspection oracle: one lookup per `postGraphQL` introspection
round trip.  `queryFields` is `__schema.queryType.fields ?? []`;
`typeFields name` is `__type(name).fields` (`none` for an unknown type or
null fields, the code applies `?? []`); `inputFields name` is the list of
`__type(name).inputFields` names. -/
structure Introspection where
  queryFields : List QueryFieldInfo
  typeFields : String → Option (List NamedField)
  inputFields : String → Option (List String)

/-- `unwrapTypeName` (subgraph.ts lines 158-168): walk through NON_NULL
and LIST wrappers to the first concrete name. -/
def unwrapTypeName : TypeRef → Option String
  | .mk kind name ofType =>
    if kind = "NON_NULL" || kind = "LIST" then
      match ofType with
      | some t => unwrapTypeName t
      | none => none
    else name

/-- `deriveEntityTypeName` (lines 170-174): singularize and capitalize. -/
def deriveEntityTypeName (value : String) : Option String :=
  if value = "" then none
  else
    let base : List Char :=
      match value.data.reverse with
      | 's' :: rest => rest.reverse
      | _ => value.data
    match base with
    | [] => none
    | c :: rest => some (String.mk (c.toUpper :: rest))

/-- `isRequiredArg` (lines 176-178). -/
def isRequiredArg (t : TypeRef) : Bool :=
  t.kind = "NON_NULL"

/-- `pickField` (lines 180-190) on the field-name list: the first
candidate present. -/
def pickField (fields : List String) (candidates : List String) : Option String :=
  candidates.find? (fun c => fields.contains c)

/-- The set of required argument names the engine can supply
(lines 605 and 674). -/
def supportedRequired : List String := ["user", "account", "from", "skip", "where"]

/-- `Array.prototype.join(", ")`. -/
def joinComma : List String → String
  | [] => ""
  | [s] => s
  | s :: rest => s ++ ", " ++ joinComma rest

/-- `buildAaveConfigFromField` (lines 667-1013). -/
def buildAaveConfigFromField (intro : Introspection) (queryField : QueryFieldInfo) :
    Option AaveSchemaConfig :=
  let requiredArgs := (queryField.args.filter (fun a => isRequiredArg a.type)).map
    (fun a => a.name)
  if requiredArgs.any (fun a => !(supportedRequired.contains a)) then none
  else
    let eventTypeNameOpt : Option String :=
      match unwrapTypeName queryField.type with
      | some n => some n
      | none => deriveEntityTypeName queryField.name
    match eventTypeNameOpt with
    | none => none
    | some eventTypeName =>
      let eventFields := (intro.typeFields eventTypeName).getD []
      if eventFields.length = 0 then
        some { queryField := queryField.name
               eventTypeName := eventTypeName
               fields := { id := some "id", timestamp := some "timestamp"
                           txHash := some "transactionHash", logIndex := some "logIndex"
                           blockNumber := some "blockNumber", action := some "eventType"
                           amount := some "amount", amountUsd := some "amountUSD" }
               orderByField := some "timestamp"
               fallbackEventType := some queryField.name }
      else
        let names := eventFields.map (fun f => f.name)
        let timestampField := pickField names ["timestamp", "blockTimestamp", "block_timestamp"]
        let txHashField := pickField names ["txHash", "transactionHash", "hash"]
        let logIndexField := pickField names ["logIndex", "log_index"]
        let blockNumberField := pickField names ["blockNumber", "block_number"]
        let actionField := pickField names ["action", "eventType", "type"]
        let amountField := pickField names ["amount", "value", "amountBeforeFee", "amountAfterFee"]
        let amountUsdField := pickField names ["amountUSD", "amountUsd", "amountInUSD", "amount_usd"]
        let reserveField := pickField names ["asset", "market", "reserve", "token", "inputToken"]
        let assetField := pickField names ["asset"]
        let positionField := pickField names ["position"]
        match timestampField with
        | none => none
        | some tsf =>
          let reserveTriple :
              Option RoleFields × Option String × Option RoleFields :=
            match reserveField with
            | none => (none, none, none)
            | some rf =>
              let reserveTypeName :=
                match eventFields.find? (fun f => f.name = rf) with
                | some f => unwrapTypeName f.type
                | none => none
              match reserveTypeName with
              | none => (none, none, none)
              | some rtn =>
                let reserveTypeFields : List NamedField := (intro.typeFields rtn).getD []
                let rNames := reserveTypeFields.map (fun f => f.name)
                let reserveNestedField :=
                  pickField rNames ["asset", "inputToken", "inputTokens", "outputToken", "token"]
                let reserveNestedFields : Option RoleFields :=
                  match reserveNestedField with
                  | none => none
                  | some nf =>
                    let nestedTypeName :=
                      match reserveTypeFields.find? (fun f => f.name = nf) with
                      | some f => unwrapTypeName f.type
                      | none => none
                    match nestedTypeName with
                    | none => none
                    | some ntn =>
                      let nestedTypeFlds : List NamedField := (intro.typeFields ntn).getD []
                      let nestedNames := nestedTypeFlds.map (fun f => f.name)
                      some { symbol := pickField nestedNames ["symbol", "name"]
                             underlyingAsset := pickField nestedNames ["id", "tokenAddress", "address"]
                             decimals := pickField nestedNames ["decimals"] }
                let underlyingAssetField :=
                  pickField rNames ["underlyingAsset", "underlyingAssetAddress", "tokenAddress", "id"]
                (some { symbol := some ((pickField rNames ["symbol", "name"]).getD "symbol")
                        underlyingAsset := some (underlyingAssetField.getD "id")
                        decimals := some ((pickField rNames ["decimals"]).getD "decimals") },
                 reserveNestedField, reserveNestedFields)
          let positionQuad :
              Option String × Option String × Option String × Option RoleFields :=
            match positionField with
            | none => (none, none, none, none)
            | some pf =>
              let positionTypeName :=
                match eventFields.find? (fun f => f.name = pf) with
                | some f => unwrapTypeName f.type
                | none => none
              match positionTypeName with
              | none => (none, none, none, none)
              | some ptn =>
                let positionFields : List NamedField := (intro.typeFields ptn).getD []
                let pNames := positionFields.map (fun f => f.name)
                match pickField pNames ["market"] with
                | none => (none, none, none, none)
                | some mf =>
                  let marketTypeName :=
                    match positionFields.find? (fun f => f.name = mf) with
                    | some f => unwrapTypeName f.type
                    | none => none
                  match marketTypeName with
                  | none => (some mf, none, none, none)
                  | some mtn =>
                    let marketFields : List NamedField := (intro.typeFields mtn).getD []
                    let mNames := marketFields.map (fun f => f.name)
                    let positionMarketTokenField :=
                      pickField mNames ["inputToken", "outputToken", "asset", "token"]
                    let positionMarketTokenListField := pickField mNames ["inputTokens"]
                    let tokenKey : Option String :=
                      match positionMarketTokenField with
                      | some t => some t
                      | none => positionMarketTokenListField
                    let tokenTypeName :=
                      match tokenKey with
                      | none => none
                      | some tk =>
                        match marketFields.find? (fun (f : NamedField) => f.name = tk) with
                        | some f => unwrapTypeName f.type
                        | none => none
                    let positionMarketTokenFields : Option RoleFields :=
                      match tokenTypeName with
                      | none => none
                      | some ttn =>
                        let tFields : List NamedField := (intro.typeFields ttn).getD []
                        let tNames := tFields.map (fun (f : NamedField) => f.name)
                        some { symbol := some ((pickField tNames ["symbol", "name"]).getD "symbol")
                               underlyingAsset :=
                                 some ((pickField tNames ["id", "tokenAddress", "address"]).getD "id")
                               decimals := some ((pickField tNames ["decimals"]).getD "decimals") }
                    (some mf, positionMarketTokenField, positionMarketTokenListField,
                     positionMarketTokenFields)
          let directUserArg :=
            (queryField.args.find? (fun a => ["user", "account"].contains a.name)).map
              (fun a => a.name)
          let directTimestampArg :=
            (queryField.args.find? (fun a =>
              ["from", "fromTimestamp", "timestamp_gte"].contains a.name)).map (fun a => a.name)
          let whereArg := queryField.args.find? (fun a => a.name = "where")
          let whereTypeName :=
            match whereArg with
            | some a => unwrapTypeName a.type
            | none => none
          let wherePair : Option String × Option String :=
            match whereTypeName with
            | none => (none, none)
            | some wtn =>
              let wNames := (intro.inputFields wtn).getD []
              (pickField wNames
                ["user", "account", "from", "to", "user_", "account_", "from_", "to_"],
               pickField wNames ["timestamp_gte", "blockTimestamp_gte", "timestamp_gt"])
          some { queryField := queryField.name
                 eventTypeName := eventTypeName
                 fields := { id := pickField names ["id"], timestamp := some tsf
                             txHash := txHashField, logIndex := logIndexField
                             blockNumber := blockNumberField, action := actionField
                             amount := amountField, amountUsd := amountUsdField }
                 whereUserField := wherePair.1
                 whereTimestampField := wherePair.2
                 directUserArg := directUserArg
                 directTimestampArg := directTimestampArg
                 requiresWhere := requiredArgs.contains "where"
                 orderByField := some tsf
                 reserveField := reserveField
                 assetField := assetField
                 reserveNestedField := reserveTriple.2.1
                 reserveFields := reserveTriple.1
                 reserveNestedFields := reserveTriple.2.2
                 positionField := positionField
                 positionMarketField := positionQuad.1
                 positionMarketTokenField := positionQuad.2.1
                 positionMarketTokenListField := positionQuad.2.2.1
                 positionMarketTokenFields := positionQuad.2.2.2
                 fallbackEventType := some queryField.name }

/-- The `for (const field of fields)` accumulation of
`resolveAaveSchemaConfig` (lines 587-593). -/
def buildConfigsLoop (intro : Introspection) :
    List QueryFieldInfo → List AaveSchemaConfig → List AaveSchemaConfig
  | [], configs => configs
  | f :: rest, configs =>
    if configs.any (fun c => c.queryField = f.name) then
      buildConfigsLoop intro rest configs
    else
      match buildAaveConfigFromField intro f with
      | some c => buildConfigsLoop intro rest (configs ++ [c])
      | none => buildConfigsLoop intro rest configs

/-- The minimal borrow/repay config pushed by the augmentation
(lines 607-624). -/
def borrowRepayMinimalConfig (name : String) (field : QueryFieldInfo) : AaveSchemaConfig :=
  { queryField := field.name
    eventTypeName := (unwrapTypeName field.type).getD name
    fields := { id := some "id", timestamp := some "timestamp"
                txHash := some "transactionHash", logIndex := some "logIndex"
                blockNumber := some "blockNumber", action := some "eventType"
                amount := some "amount", amountUsd := some "amountUSD" }
    orderByField := some "timestamp"
    fallbackEventType := some field.name
    whereUserField := some "user"
    requiresWhere := true }

/-- The borrow/repay augmentation loop (lines 595-625): make sure usable
`borrows` / `repays` fields get a config even when the generic build
skipped them, unless they take unsupported required arguments. -/
def borrowRepayAugment (fields : List QueryFieldInfo) :
    List String → List AaveSchemaConfig → List AaveSchemaConfig
  | [], configs => configs
  | name :: rest, configs =>
    if configs.any (fun c => c.queryField = name) then
      borrowRepayAugment fields rest configs
    else
      match fields.find? (fun f => f.name = name) with
      | none => borrowRepayAugment fields rest configs
      | some field =>
        let requiredArgs := (field.args.filter (fun a => isRequiredArg a.type)).map
          (fun a => a.name)
        if requiredArgs.any (fun a => !(supportedRequired.contains a)) then
          borrowRepayAugment fields rest configs
        else
          borrowRepayAugment fields rest (configs ++ [borrowRepayMinimalConfig name field])

/-- The fixed fallback field names (lines 631-641). -/
def fallbackNames : List String :=
  ["deposits", "withdraws", "borrows", "repays", "liquidates", "transfers",
   "flashloans", "events", "event"]

/-- The minimal config produced for a fallback-named field
(lines 646-657). -/
def fallbackConfig (f : QueryFieldInfo) : AaveSchemaConfig :=
  { queryField := f.name
    eventTypeName := f.name
    fields := { id := some "id", timestamp := some "timestamp"
                amount := some "amount", amountUsd := some "amountUSD" }
    orderByField := some "timestamp"
    fallbackEventType := some f.name }

/-- The candidate-name selection of `resolveAaveSchemaConfig`
(lines 541-551); the full resolver (lines 537-665) is assembled below
from this and the staged helpers, with `Except.error` modelling the
thrown discovery failure. -/
def queryFieldNameOf (intro : Introspection) : Option String :=
  let fields := intro.queryFields
  let names := fields.map (fun f => f.name)
  let namedCandidates := ["userTransactions", "transactions", "userTransaction",
    "userTransactionsV2", "userActivities", "userActivity", "activities", "events"]
  match pickField names namedCandidates with
  | some n => some n
  | none =>
    match fields.find? (fun f => listContains (lowerStr f.name).data "transaction".data) with
    | some f => some f.name
    | none =>
      match fields.find? (fun f => listContains (lowerStr f.name).data "activity".data) with
      | some f => some f.name
      | none => none

/-- The directly matched candidate field (lines 552-576). -/
def aaveDirectMatch (intro : Introspection) : Option QueryFieldInfo :=
  match queryFieldNameOf intro with
  | some qn => intro.queryFields.find? (fun f => f.name = qn)
  | none => none

/-- The config list seeded from the direct match (lines 577-585). -/
def aaveConfigs0 (intro : Introspection) : List AaveSchemaConfig :=
  match aaveDirectMatch intro with
  | some f =>
    match buildAaveConfigFromField intro f with
    | some c => [c]
    | none => []
  | none => []

def resolveAaveSchemaConfig (intro : Introspection) :
    Except String (List AaveSchemaConfig) :=
  let fields := intro.queryFields
  let names := fields.map (fun f => f.name)
  let configs1 := buildConfigsLoop intro fields (aaveConfigs0 intro)
  let configs2 := borrowRepayAugment fields ["borrows", "repays"] configs1
  if configs2.length > 0 then .ok configs2
  else
    let fallbackFields := fields.filter (fun f => fallbackNames.contains f.name)
    if fallbackFields.length > 0 then .ok (fallbackFields.map fallbackConfig)
    else
      .error ("Aave subgraph has no transaction query field. Available: " ++ joinComma names)

/-- `resolveCompoundSchemaConfig` (lines 1195-1355) over the introspection
oracle. -/
def resolveCompoundSchemaConfig (intro : Introspection) :
    Except String CompoundSchemaConfig :=
  let fields := intro.queryFields
  let names := fields.map (fun f => f.name)
  let queryFieldName : String :=
    match pickField names ["accountEvents", "events", "accountEvent", "event"] with
    | some n => n
    | none =>
      match fields.find? (fun f => listContains (lowerStr f.name).data "event".data) with
      | some f => f.name
      | none => "accountEvents"
  match fields.find? (fun f => f.name = queryFieldName) with
  | none => .error "Compound subgraph has no event query field."
  | some queryField =>
    match unwrapTypeName queryField.type with
    | none => .error "Compound subgraph event type not found."
    | some eventTypeName =>
      let eventFields := (intro.typeFields eventTypeName).getD []
      let eNames := eventFields.map (fun f => f.name)
      let timestampField := pickField eNames ["timestamp", "blockTimestamp", "block_timestamp"]
      let txHashField := pickField eNames ["transactionHash", "txHash", "hash"]
      let logIndexField := pickField eNames ["logIndex", "log_index"]
      let blockNumberField := pickField eNames ["blockNumber", "block_number"]
      let eventTypeField := pickField eNames ["eventType", "type", "action"]
      let amountField := pickField eNames ["amount", "amountBeforeFee", "amountAfterFee"]
      let amountUsdField := pickField eNames ["amountUsd", "amountUSD", "amount_usd", "amountInUSD"]
      let assetField := pickField eNames ["asset", "token"]
      let assetFields : Option AssetFields :=
        match assetField with
        | none => none
        | some af =>
          let assetTypeName :=
            match eventFields.find? (fun f => f.name = af) with
            | some f => unwrapTypeName f.type
            | none => none
          match assetTypeName with
          | none => none
          | some atn =>
            let aFields : List NamedField := (intro.typeFields atn).getD []
            let aNames := aFields.map (fun f => f.name)
            some { id := pickField aNames ["id", "tokenAddress", "address"]
                   symbol := pickField aNames ["symbol", "name"]
                   decimals := pickField aNames ["decimals"] }
      let whereArg := queryField.args.find? (fun a => a.name = "where")
      let whereTypeName :=
        match whereArg with
        | some a => unwrapTypeName a.type
        | none => none
      let wherePair : Option String × Option String :=
        match whereTypeName with
        | none => (none, none)
        | some wtn =>
          let wNames := (intro.inputFields wtn).getD []
          (pickField wNames ["account", "user", "account_", "user_"],
           pickField wNames ["timestamp_gte", "blockTimestamp_gte", "timestamp_gt"])
      .ok { queryField := queryField.name
            eventTypeName := eventTypeName
            fields := { id := pickField eNames ["id"], timestamp := timestampField
                        txHash := txHashField, logIndex := logIndexField
                        blockNumber := blockNumberField, eventType := eventTypeField
                        amount := amountField, amountUsd := amountUsdField }
            whereAccountField := wherePair.1
            whereTimestampField := wherePair.2
            orderByField := timestampField
            assetField := assetField
            assetFields := assetFields }

/-! ### Endpoint schema cache (subgraph.ts lines 120-121, 530-535,
1188-1193) -/

/-- Decidable equality for resolution outcomes, used by concrete cache
evaluations. -/
instance {ε α : Type} [DecidableEq ε] [DecidableEq α] : DecidableEq (Except ε α) :=
  fun x y =>
    match x, y with
    | .error a, .error b =>
      if h : a = b then isTrue (by rw [h])
      else isFalse (fun hc => by cases hc; exact h rfl)
    | .error _, .ok _ => isFalse (fun hc => by cases hc)
    | .ok _, .error _ => isFalse (fun hc => by cases hc)
    | .ok a, .ok b =>
      if h : a = b then isTrue (by rw [h])
      else isFalse (fun hc => by cases hc; exact h rfl)

/-- Look a URL up in a cache association list. -/
def cacheLookup {α : Type} (cache : List (String × α)) (url : String) : Option α :=
  (cache.find? (fun p => p.1 = url)).map Prod.snd

/-- `getAaveSchemaConfig` (lines 530-535) with the module-level
`aaveSchemaCache` made explicit.  `resolve` is the settled outcome the
in-flight `resolveAaveSchemaConfig(url)` promise would produce at this
call; the map stores the promise, so the outcome — error included — is
cached on first call and replayed afterwards. -/
def getAaveSchemaConfig
    (resolve : String → Except String (List AaveSchemaConfig))
    (cache : List (String × Except String (List AaveSchemaConfig)))
    (url : String) :
    List (String × Except String (List AaveSchemaConfig)) ×
      Except String (List AaveSchemaConfig) :=
  match cacheLookup cache url with
  | some r => (cache, r)
  | none => (cache ++ [(url, resolve url)], resolve url)

/-- `getCompoundSchemaConfig` (lines 1188-1193), same shape. -/
def getCompoundSchemaConfig
    (resolve : String → Except String CompoundSchemaConfig)
    (cache : List (String × Except String CompoundSchemaConfig))
    (url : String) :
    List (String × Except String CompoundSchemaConfig) ×
      Except String CompoundSchemaConfig :=
  match cacheLookup cache url with
  | some r => (cache, r)
  | none => (cache ++ [(url, resolve url)], resolve url)

/-! ### C5: the schema cache retains failures -/

/-- A resolution that fails (the endpoint was down at first call). -/
def cexResolveFail : String → Except String (List AaveSchemaConfig) :=
  fun _ => .error "introspection failed"

/-- A resolution that would now succeed (the endpoint recovered). -/
def cexResolveOk : String → Except String (List AaveSchemaConfig) :=
  fun _ => .ok [sampleAaveConfig]

/-- C5 counterexample: the first failed resolution is stored in the cache;
a later call for the same URL — although resolution would now succeed —
returns the cached failure and leaves the cache unchanged, so the failure
is retained, not evicted. -/
theorem schema_cache_retains_failure_cex :
    (getAaveSchemaConfig cexResolveFail [] "u").1 =
      [("u", .error "introspection failed")] ∧
    (getAaveSchemaConfig cexResolveOk [("u", .error "introspection failed")] "u").2 =
      .error "introspection failed" ∧
    (getAaveSchemaConfig cexResolveOk [("u", .error "introspection failed")] "u").1 =
      [("u", .error "introspection failed")] := by
  refine ⟨by decide, by decide, by decide⟩

/-- C5 (amended): `getAaveSchemaConfig` / `getCompoundSchemaConfig`
memoize the first resolution outcome per URL unconditionally — a miss
stores whatever the resolution settles to, error included, and a hit
replays the stored outcome without resolving again. -/
theorem schema_cache_memoizes_outcome :
    (∀ (resolve : String → Except String (List AaveSchemaConfig)) cache url,
      cacheLookup cache url = none →
      getAaveSchemaConfig resolve cache url = (cache ++ [(url, resolve url)], resolve url)) ∧
    (∀ (resolve : String → Except String (List AaveSchemaConfig)) cache url r,
      cacheLookup cache url = some r →
      getAaveSchemaConfig resolve cache url = (cache, r)) ∧
    (∀ (resolve : String → Except String CompoundSchemaConfig) cache url,
      cacheLookup cache url = none →
      getCompoundSchemaConfig resolve cache url = (cache ++ [(url, resolve url)], resolve url)) ∧
    (∀ (resolve : String → Except String CompoundSchemaConfig) cache url r,
      cacheLookup cache url = some r →
      getCompoundSchemaConfig resolve cache url = (cache, r)) := by
  refine ⟨?_, ?_, ?_, ?_⟩
  · intro resolve cache url h
    unfold getAaveSchemaConfig
    rw [h]
  · intro resolve cache url r h
    unfold getAaveSchemaConfig
    rw [h]
  · intro resolve cache url h
    unfold getCompoundSchemaConfig
    rw [h]
  · intro resolve cache url r h
    unfold getCompoundSchemaConfig
    rw [h]

/-- Witness for C5 (amended): miss stores the failure, hit replays it. -/
theorem schema_cache_memoizes_outcome_witness :
    getAaveSchemaConfig cexResolveFail [] "u" =
      ([("u", cexResolveFail "u")], cexResolveFail "u") ∧
    getAaveSchemaConfig cexResolveOk [("u", .error "introspection failed")] "u" =
      ([("u", .error "introspection failed")], .error "introspection failed") :=
  ⟨schema_cache_memoizes_outcome.1 cexResolveFail [] "u" (by decide),
   schema_cache_memoizes_outcome.2.1 cexResolveOk
     [("u", .error "introspection failed")] "u" (.error "introspection failed") (by decide)⟩


/-! ### C8: what the discovery failures say -/

/-- Substring machinery for reasoning about the Aave failure message. -/
theorem startsWithChars_append (pat t : List Char) :
    startsWithChars pat (pat ++ t) = true := by
  induction pat with
  | nil => rfl
  | cons c rest ih =>
    show (decide (c = c) && startsWithChars rest (rest ++ t)) = true
    rw [ih]
    simp

theorem listContains_nil_pat (s : List Char) : listContains s [] = true := by
  induction s with
  | nil => rfl
  | cons c rest ih =>
    show (startsWithChars [] (c :: rest) || listContains rest []) = true
    rw [ih]
    simp

theorem listContains_of_parts (pat : List Char) :
    ∀ pre post : List Char, listContains (pre ++ pat ++ post) pat = true := by
  intro pre
  induction pre with
  | nil =>
    intro post
    cases pat with
    | nil => exact listContains_nil_pat post
    | cons c t =>
      show (startsWithChars (c :: t) ((c :: t) ++ post) || listContains (t ++ post) (c :: t)) = true
      rw [startsWithChars_append]
      simp
  | cons c pre ih =>
    intro post
    show (startsWithChars pat (c :: (pre ++ pat ++ post)) ||
        listContains (pre ++ pat ++ post) pat) = true
    rw [ih post]
    simp

theorem joinComma_mem_parts (names : List String) (n : String) (h : n ∈ names) :
    ∃ pre post : List Char, (joinComma names).data = pre ++ n.data ++ post := by
  induction names with
  | nil => simp at h
  | cons m rest ih =>
    cases rest with
    | nil =>
      have hm : n = m := by simpa using h
      subst hm
      exact ⟨[], [], by simp [joinComma]⟩
    | cons m2 rest2 =>
      rcases List.mem_cons.mp h with hm | hmem
      · subst hm
        refine ⟨[], ", ".data ++ (joinComma (m2 :: rest2)).data, ?_⟩
        show ((n ++ ", ") ++ joinComma (m2 :: rest2)).data = _
        simp [String.data_append, List.append_assoc]
      · obtain ⟨pre, post, hp⟩ := ih hmem
        refine ⟨(m ++ ", ").data ++ pre, post, ?_⟩
        show ((m ++ ", ") ++ joinComma (m2 :: rest2)).data = _
        rw [String.data_append, hp]
        simp [List.append_assoc]

theorem listContains_message (prefixStr : String) (names : List String) (n : String)
    (h : n ∈ names) :
    listContains (prefixStr ++ joinComma names).data n.data = true := by
  obtain ⟨pre, post, hp⟩ := joinComma_mem_parts names n h
  have hmsg : (prefixStr ++ joinComma names).data = (prefixStr.data ++ pre) ++ n.data ++ post := by
    rw [String.data_append, hp]
    simp [List.append_assoc]
  rw [hmsg]
  exact listContains_of_parts n.data _ _

/-- C8 (amended): every discovery failure of the Aave adapter carries a
message enumerating every root query field name actually observed on the
endpoint, while the Compound adapter's failures carry one of two fixed
messages that enumerate nothing. -/
theorem discovery_failure_messages :
    (∀ (intro : Introspection) (msg : String),
      resolveAaveSchemaConfig intro = .error msg →
      ∀ qf ∈ intro.queryFields, listContains msg.data qf.name.data = true) ∧
    (∀ (intro : Introspection) (msg : String),
      resolveCompoundSchemaConfig intro = .error msg →
      msg = "Compound subgraph has no event query field." ∨
      msg = "Compound subgraph event type not found.") := by
  constructor
  · intro intro msg h qf hqf
    unfold resolveAaveSchemaConfig at h
    dsimp only at h
    split at h
    · exact absurd h (by simp)
    · split at h
      · exact absurd h (by simp)
      · cases h
        exact listContains_message _ _ _ (List.mem_map_of_mem (fun f => f.name) hqf)
  · intro intro msg h
    unfold resolveCompoundSchemaConfig at h
    dsimp only at h
    split at h
    · cases h
      exact Or.inl rfl
    · split at h
      · cases h
        exact Or.inr rfl
      · exact absurd h (by simp)

/-- An endpoint whose single root field `foo` is not event-like. -/
def cexIntroCompound : Introspection :=
  { queryFields := [{ name := "foo", args := [], type := .mk "OBJECT" (some "Foo") none }]
    typeFields := fun _ => none
    inputFields := fun _ => none }

/-- A root field `foo` with a required argument outside the supported set. -/
def cexAaveFailField : QueryFieldInfo :=
  { name := "foo"
    args := [{ name := "signature"
               type := .mk "NON_NULL" none (some (.mk "SCALAR" (some "Bytes") none)) }]
    type := .mk "OBJECT" (some "Foo") none }

/-- An endpoint whose single root field `foo` is unusable for the Aave
adapter (a required argument outside the supported set). -/
def cexIntroAaveFail : Introspection :=
  { queryFields := [cexAaveFailField]
    typeFields := fun _ => none
    inputFields := fun _ => none }

/-- C8 counterexample: when the Compound adapter finds no usable root
field its error is a fixed string that does not mention the root field
`foo` actually observed on the endpoint, so the Compound failure does not
enumerate the observed root fields. -/
theorem compound_discovery_error_no_enumeration_cex :
    resolveCompoundSchemaConfig cexIntroCompound =
      .error "Compound subgraph has no event query field." ∧
    cexIntroCompound.queryFields.map (fun f => f.name) = ["foo"] ∧
    listContains "Compound subgraph has no event query field.".data "foo".data = false := by
  refine ⟨by decide, by decide, by decide⟩

/-- Witness for C8 (amended): on a `foo`-only endpoint the Aave failure
message mentions `foo`, and the Compound failure is the first of the two
fixed messages. -/
theorem discovery_failure_messages_witness :
    listContains
      "Aave subgraph has no transaction query field. Available: foo".data
      "foo".data = true ∧
    ("Compound subgraph has no event query field." =
        "Compound subgraph has no event query field." ∨
      "Compound subgraph has no event query field." =
        "Compound subgraph event type not found.") :=
  ⟨discovery_failure_messages.1 cexIntroAaveFail
      "Aave subgraph has no transaction query field. Available: foo" (by decide)
      cexAaveFailField
      (by simp [cexIntroAaveFail]),
   discovery_failure_messages.2 cexIntroCompound _ (by decide)⟩

/-! ### C7: required arguments outside the supported set -/

theorem requiredArgs_any_unsupported (qf : QueryFieldInfo)
    (h : ∃ a ∈ qf.args, isRequiredArg a.type = true ∧
      supportedRequired.contains a.name = false) :
    ((qf.args.filter (fun a => isRequiredArg a.type)).map (fun a => a.name)).any
      (fun a => !(supportedRequired.contains a)) = true := by
  obtain ⟨a, hmem, hreq, hsup⟩ := h
  rw [List.any_eq_true]
  refine ⟨a.name, List.mem_map_of_mem _ (List.mem_filter.mpr ⟨hmem, hreq⟩), ?_⟩
  rw [hsup]
  rfl

theorem buildConfigsLoop_all_none (intro : Introspection) :
    ∀ (l : List QueryFieldInfo) (configs : List AaveSchemaConfig),
      (∀ f ∈ l, buildAaveConfigFromField intro f = none) →
      buildConfigsLoop intro l configs = configs := by
  intro l
  induction l with
  | nil => intro configs h; rfl
  | cons f rest ih =>
    intro configs h
    have hf := h f (List.mem_cons_self f rest)
    have hrest : ∀ g ∈ rest, buildAaveConfigFromField intro g = none :=
      fun g hg => h g (List.mem_cons_of_mem f hg)
    simp only [buildConfigsLoop, hf]
    split
    · exact ih configs hrest
    · exact ih configs hrest

theorem borrowRepayAugment_all_unsupported (fields : List QueryFieldInfo)
    (hall : ∀ f ∈ fields,
      ((f.args.filter (fun a => isRequiredArg a.type)).map (fun a => a.name)).any
        (fun a => !(supportedRequired.contains a)) = true) :
    ∀ (names : List String) (configs : List AaveSchemaConfig),
      borrowRepayAugment fields names configs = configs := by
  intro names
  induction names with
  | nil => intro configs; rfl
  | cons name rest ih =>
    intro configs
    simp only [borrowRepayAugment]
    split
    · exact ih configs
    · split
      · exact ih configs
      · rename_i field hfind
        rw [hall field (List.mem_of_find?_eq_some hfind), if_pos rfl]
        exact ih configs

theorem aaveDirectMatch_mem (intro : Introspection) (f : QueryFieldInfo)
    (h : aaveDirectMatch intro = some f) : f ∈ intro.queryFields := by
  unfold aaveDirectMatch at h
  cases hq : queryFieldNameOf intro with
  | none => rw [hq] at h; exact absurd h (by simp)
  | some qn =>
    rw [hq] at h
    exact List.mem_of_find?_eq_some h

theorem aaveConfigs0_nil (intro : Introspection)
    (hnone : ∀ f ∈ intro.queryFields, buildAaveConfigFromField intro f = none) :
    aaveConfigs0 intro = [] := by
  unfold aaveConfigs0
  cases hdm : aaveDirectMatch intro with
  | none => rfl
  | some f =>
    dsimp only
    rw [hnone f (aaveDirectMatch_mem intro f hdm)]

/-- C7 (amended): a candidate field declaring a required argument outside
`{user, account, from, skip, where}` is rejected by the config builder;
if every observed field is rejected for that reason AND none of them
bears one of the fixed fallback names, discovery fails with a message
listing all observed fields. (Fallback-named fields such as `borrows`
still receive a config despite an unsupported required argument — see the
counterexample.) -/
theorem unsupported_required_arg_exclusion :
    (∀ (intro : Introspection) (qf : QueryFieldInfo),
      (∃ a ∈ qf.args, isRequiredArg a.type = true ∧
        supportedRequired.contains a.name = false) →
      buildAaveConfigFromField intro qf = none) ∧
    (∀ intro : Introspection,
      (∀ qf ∈ intro.queryFields,
        ∃ a ∈ qf.args, isRequiredArg a.type = true ∧
          supportedRequired.contains a.name = false) →
      (∀ qf ∈ intro.queryFields, fallbackNames.contains qf.name = false) →
      ∃ msg, resolveAaveSchemaConfig intro = .error msg ∧
        ∀ qf ∈ intro.queryFields, listContains msg.data qf.name.data = true) := by
  have hbuild : ∀ (intro : Introspection) (qf : QueryFieldInfo),
      (∃ a ∈ qf.args, isRequiredArg a.type = true ∧
        supportedRequired.contains a.name = false) →
      buildAaveConfigFromField intro qf = none := by
    intro intro qf h
    unfold buildAaveConfigFromField
    dsimp only
    rw [requiredArgs_any_unsupported qf h, if_pos rfl]
  refine ⟨hbuild, ?_⟩
  intro intro hall hfb
  have hnone : ∀ f ∈ intro.queryFields, buildAaveConfigFromField intro f = none :=
    fun f hf => hbuild intro f (hall f hf)
  refine ⟨"Aave subgraph has no transaction query field. Available: " ++
      joinComma (intro.queryFields.map fun f => f.name), ?_, ?_⟩
  · unfold resolveAaveSchemaConfig
    dsimp only
    rw [aaveConfigs0_nil intro hnone,
        buildConfigsLoop_all_none intro intro.queryFields [] hnone,
        borrowRepayAugment_all_unsupported intro.queryFields
          (fun f hf => requiredArgs_any_unsupported f (hall f hf))
          ["borrows", "repays"] []]
    rw [if_neg (by simp)]
    rw [List.filter_eq_nil_iff.mpr
          (fun f hf => by rw [hfb f hf]; exact Bool.false_ne_true),
        if_neg (by simp)]
  · intro qf hqf
    exact listContains_message _ _ _ (List.mem_map_of_mem (fun f => f.name) hqf)

/-- A `borrows` field whose required argument is outside the supported
set. -/
def cexBorrowsSigField : QueryFieldInfo :=
  { name := "borrows"
    args := [{ name := "signature"
               type := .mk "NON_NULL" none (some (.mk "SCALAR" (some "Bytes") none)) }]
    type := .mk "LIST" none (some (.mk "OBJECT" (some "Borrow") none)) }

/-- An endpoint whose only root field is that `borrows` field. -/
def cexIntroBorrowsSig : Introspection :=
  { queryFields := [cexBorrowsSigField]
    typeFields := fun _ => none
    inputFields := fun _ => none }

/-- C7 counterexample: a root field `borrows(signature: Bytes!)` whose
required argument the engine cannot supply is rejected by the config
builder, yet discovery still returns a usable Schema Config for that very
field through the fixed fallback-name list — the field is not excluded
from the usable list entirely, and no discovery failure is raised. -/
theorem unsupported_required_arg_fallback_cex :
    buildAaveConfigFromField cexIntroBorrowsSig cexBorrowsSigField = none ∧
    resolveAaveSchemaConfig cexIntroBorrowsSig =
      .ok [fallbackConfig cexBorrowsSigField] ∧
    (fallbackConfig cexBorrowsSigField).queryField = "borrows" := by
  refine ⟨by decide, by decide, by decide⟩

/-- A non-fallback-named field with the unsupported required argument. -/
def cexC7Field : QueryFieldInfo :=
  { name := "userEvents"
    args := [{ name := "signature"
               type := .mk "NON_NULL" none (some (.mk "SCALAR" (some "Bytes") none)) }]
    type := .mk "LIST" none (some (.mk "OBJECT" (some "UserEvent") none)) }

/-- An endpoint whose only root field is that `userEvents` field. -/
def cexC7Intro : Introspection :=
  { queryFields := [cexC7Field]
    typeFields := fun _ => none
    inputFields := fun _ => none }

/-- Witness for C7 (amended): `userEvents(signature: Bytes!)` is rejected
by the builder and, being the only field and not fallback-named,
discovery fails with a message mentioning it. -/
theorem unsupported_required_arg_exclusion_witness :
    buildAaveConfigFromField cexC7Intro cexC7Field = none ∧
    (∃ msg, resolveAaveSchemaConfig cexC7Intro = .error msg ∧
      ∀ qf ∈ cexC7Intro.queryFields, listContains msg.data qf.name.data = true) := by
  constructor
  · exact unsupported_required_arg_exclusion.1 cexC7Intro cexC7Field
      ⟨{ name := "signature"
         type := .mk "NON_NULL" none (some (.mk "SCALAR" (some "Bytes") none)) },
       List.mem_singleton_self _, rfl, rfl⟩
  · refine unsupported_required_arg_exclusion.2 cexC7Intro ?_ ?_
    · intro qf hqf
      have hq : qf = cexC7Field := List.mem_singleton.mp hqf
      subst hq
      exact ⟨{ name := "signature"
               type := .mk "NON_NULL" none (some (.mk "SCALAR" (some "Bytes") none)) },
             List.mem_singleton_self _, rfl, rfl⟩
    · intro qf hqf
      have hq : qf = cexC7Field := List.mem_singleton.mp hqf
      subst hq
      rfl

/-! ### C6: borrow/repay-labeled schemas come first -/

/-- The uncapped event stream one schema contributes: every page up to the
first short page, each record normalized with survivors kept in order. -/
def aaveStream (pages : PageOracle) (schema : AaveSchemaConfig) :
    Nat → Nat → Option (List NormalizedEvent)
  | 0, _ => none
  | fuel + 1, skip =>
    let batch := pages schema.queryField skip
    let evs := (batch.map (fun raw => normalizeEvent (aaveExtract schema raw))).filterMap id
    if batch.length < PAGE_SIZE then some evs
    else
      match aaveStream pages schema fuel (skip + PAGE_SIZE) with
      | none => none
      | some rest => some (evs ++ rest)

/-- Concatenation of the per-schema streams in list order. -/
def streamsConcat (pages : PageOracle) (fuel : Nat) :
    List AaveSchemaConfig → Option (List NormalizedEvent)
  | [] => some []
  | schema :: rest =>
    match aaveStream pages schema fuel 0, streamsConcat pages fuel rest with
    | some evs, some s => some (evs ++ s)
    | _, _ => none

theorem aavePageLoop_none_stream (pages : PageOracle) (schema : AaveSchemaConfig) :
    ∀ (fuel skip : Nat) (events : List NormalizedEvent)
      (res : List NormalizedEvent × List (String × Nat) × Bool),
      aavePageLoop pages schema none fuel skip events = some res →
      ∃ s, aaveStream pages schema fuel skip = some s ∧
        res.1 = events ++ s ∧ res.2.2 = false := by
  intro fuel
  induction fuel with
  | zero =>
    intro skip events res h
    exact absurd h (by simp [aavePageLoop])
  | succ fuel ih =>
    intro skip events res h
    unfold aavePageLoop at h
    dsimp only at h
    rw [pushLoop_no_cap] at h
    dsimp only at h
    rw [if_neg (by simp)] at h
    by_cases hshort : (pages schema.queryField skip).length < PAGE_SIZE
    · rw [if_pos hshort] at h
      have hres := (Option.some.inj h).symm
      subst hres
      refine ⟨_, ?_, rfl, rfl⟩
      unfold aaveStream
      dsimp only
      rw [if_pos hshort]
    · rw [if_neg hshort] at h
      cases hrec : aavePageLoop pages schema none fuel (skip + PAGE_SIZE)
          (events ++ ((pages schema.queryField skip).map
            (fun raw => normalizeEvent (aaveExtract schema raw))).filterMap id) with
      | none => rw [hrec] at h; exact absurd h (by simp)
      | some r1 =>
        rw [hrec] at h
        obtain ⟨evs2, reqs2, hit2⟩ := r1
        dsimp only at h
        have hres := (Option.some.inj h).symm
        subst hres
        obtain ⟨s, hs, h1, h2⟩ := ih (skip + PAGE_SIZE) _ _ hrec
        dsimp only at h1 h2
        refine ⟨((pages schema.queryField skip).map
            (fun raw => normalizeEvent (aaveExtract schema raw))).filterMap id ++ s, ?_, ?_, ?_⟩
        · unfold aaveStream
          dsimp only
          rw [if_neg hshort, hs]
        · dsimp only
          rw [h1, List.append_assoc]
        · exact h2

theorem aaveSchemasLoop_none_stream (pages : PageOracle) (fuel : Nat) :
    ∀ (schemas : List AaveSchemaConfig) (events : List NormalizedEvent)
      (res : List NormalizedEvent × List (String × Nat)),
      aaveSchemasLoop pages none fuel schemas events = some res →
      ∃ s, streamsConcat pages fuel schemas = some s ∧ res.1 = events ++ s := by
  intro schemas
  induction schemas with
  | nil =>
    intro events res h
    have hres := (Option.some.inj h).symm
    subst hres
    exact ⟨[], rfl, by simp⟩
  | cons schema rest ih =>
    intro events res h
    unfold aaveSchemasLoop at h
    cases hpl : aavePageLoop pages schema none fuel 0 events with
    | none => rw [hpl] at h; exact absurd h (by simp)
    | some r1 =>
      rw [hpl] at h
      obtain ⟨events2, reqs1, hit⟩ := r1
      obtain ⟨s1, hs1, he2, hhit⟩ := aavePageLoop_none_stream pages schema fuel 0 events _ hpl
      dsimp only at he2 hhit h
      subst hhit
      rw [if_neg Bool.false_ne_true,
          show capHit none events2.length = false from rfl,
          if_neg Bool.false_ne_true] at h
      cases hsl : aaveSchemasLoop pages none fuel rest events2 with
      | none => rw [hsl] at h; exact absurd h (by simp)
      | some r2 =>
        rw [hsl] at h
        obtain ⟨out2, reqs2⟩ := r2
        dsimp only at h
        have hres := (Option.some.inj h).symm
        subst hres
        obtain ⟨s2, hs2, ho⟩ := ih events2 _ hsl
        dsimp only at ho
        refine ⟨s1 ++ s2, ?_, ?_⟩
        · unfold streamsConcat
          rw [hs1, hs2]
        · dsimp only
          rw [ho, he2, List.append_assoc]

/-- C6 (amended): without a cap, the Aave fetch returns exactly the
concatenation of the per-schema uncapped streams taken in the stably
partitioned order that queries every borrow/repay-labeled schema before
every other schema; within each group the endpoint's own config order is
preserved, so among the labeled group it is endpoint order — not
borrows-before-repays — that decides. -/
theorem borrow_repay_labeled_first (pages : PageOracle) (schemas : List AaveSchemaConfig)
    (fuel : Nat) (res : List NormalizedEvent × List (String × Nat))
    (h : fetchAaveEvents pages schemas none fuel = some res) :
    ∃ s, streamsConcat pages fuel
        (schemas.filter (fun c => wantBorrowRepay c.queryField) ++
          schemas.filter (fun c => !(wantBorrowRepay c.queryField))) = some s ∧
      res.1 = s := by
  obtain ⟨s, hs, h1⟩ :=
    aaveSchemasLoop_none_stream pages fuel (borrowFirstSort schemas) [] res h
  exact ⟨s, hs, by rw [h1]; simp⟩

/-- The `repays` root field of the order counterexample. -/
def cexRepaysField : QueryFieldInfo :=
  { name := "repays"
    args := [{ name := "user"
               type := .mk "NON_NULL" none (some (.mk "SCALAR" (some "String") none)) }]
    type := .mk "LIST" none (some (.mk "OBJECT" (some "Repay") none)) }

/-- The `borrows` root field of the order counterexample. -/
def cexBorrowsField : QueryFieldInfo :=
  { name := "borrows"
    args := [{ name := "user"
               type := .mk "NON_NULL" none (some (.mk "SCALAR" (some "String") none)) }]
    type := .mk "LIST" none (some (.mk "OBJECT" (some "Borrow") none)) }

/-- An endpoint exposing `repays` before `borrows`, both usable. -/
def cexIntroC6 : Introspection :=
  { queryFields := [cexRepaysField, cexBorrowsField]
    typeFields := fun n =>
      if n = "Repay" ∨ n = "Borrow" then
        some [{ name := "id", type := .mk "SCALAR" (some "ID") none },
              { name := "timestamp", type := .mk "SCALAR" (some "BigInt") none }]
      else none
    inputFields := fun _ => none }

/-- One repay record and one borrow record, one short page each. -/
def cexPagesC6 : PageOracle := fun q skip =>
  if q = "repays" ∧ skip = 0 then [[("id", .str "r1"), ("timestamp", .str "100")]]
  else if q = "borrows" ∧ skip = 0 then [[("id", .str "b1"), ("timestamp", .str "50")]]
  else []

/-- The config discovery derives for `repays` on that endpoint. -/
def cexRepaysCfg : AaveSchemaConfig :=
  { queryField := "repays"
    eventTypeName := "Repay"
    fields := { id := some "id", timestamp := some "timestamp" }
    directUserArg := some "user"
    orderByField := some "timestamp"
    fallbackEventType := some "repays" }

/-- The config discovery derives for `borrows` on that endpoint. -/
def cexBorrowsCfg : AaveSchemaConfig :=
  { queryField := "borrows"
    eventTypeName := "Borrow"
    fields := { id := some "id", timestamp := some "timestamp" }
    directUserArg := some "user"
    orderByField := some "timestamp"
    fallbackEventType := some "borrows" }

/-- The normalized repay event fetched from that endpoint. -/
def cexRepayEvent : NormalizedEvent :=
  { txHash := "r1"
    logIndex := ⟨0, 0⟩
    blockNumber := ⟨0, 0⟩
    timestamp := ⟨100, 0⟩
    eventType := "repays"
    assetAddress := none
    assetSymbol := none
    assetDecimals := none
    amountRaw := none
    amount := none
    amountUsdRaw := none }

/-- The normalized borrow event fetched from that endpoint. -/
def cexBorrowEvent : NormalizedEvent :=
  { txHash := "b1"
    logIndex := ⟨0, 0⟩
    blockNumber := ⟨0, 0⟩
    timestamp := ⟨50, 0⟩
    eventType := "borrows"
    assetAddress := none
    assetSymbol := none
    assetDecimals := none
    amountRaw := none
    amount := none
    amountUsdRaw := none }

/-- C6 counterexample: on an endpoint listing `repays` before `borrows`,
discovery yields the configs in endpoint order and the merged fetched
list places the repay event BEFORE the borrow event — the borrows
sub-stream does not precede the repays sub-stream. -/
theorem borrows_before_repays_cex :
    resolveAaveSchemaConfig cexIntroC6 = .ok [cexRepaysCfg, cexBorrowsCfg] ∧
    fetchAaveEvents cexPagesC6 [cexRepaysCfg, cexBorrowsCfg] none 2 =
      some ([cexRepayEvent, cexBorrowEvent], [("repays", 0), ("borrows", 0)]) ∧
    cexRepayEvent.eventType = "repays" ∧
    cexBorrowEvent.eventType = "borrows" := by
  refine ⟨by decide, by decide, rfl, rfl⟩

/-- Witness for C6 (amended) at the two-schema endpoint. -/
theorem borrow_repay_labeled_first_witness :
    ∃ s, streamsConcat cexPagesC6 2
        (([cexRepaysCfg, cexBorrowsCfg]).filter (fun c => wantBorrowRepay c.queryField) ++
          ([cexRepaysCfg, cexBorrowsCfg]).filter (fun c => !(wantBorrowRepay c.queryField))) =
        some s ∧
      (([cexRepayEvent, cexBorrowEvent],
        [("repays", 0), ("borrows", 0)]) :
          List NormalizedEvent × List (String × Nat)).1 = s :=
  borrow_repay_labeled_first cexPagesC6 [cexRepaysCfg, cexBorrowsCfg] 2
    ([cexRepayEvent, cexBorrowEvent], [("repays", 0), ("borrows", 0)]) (by decide)
